import Mathlib

/-!
Verification of the day-three engine-schematic grid scanner.

The definitions below are a shallow embedding of the Rust source
(`src/three/src/main.rs`).  Strings are modelled as `List Char`,
machine integers as `Nat`, fallible operations as `Option`.  Rust
panics (`unwrap` / `expect`) are modelled with `Option.getD` defaults;
all theorems are stated under well-formedness hypotheses that make the
defaults unreachable, mirroring the fact that the Rust code only
panics on inputs outside the spec's data model.
-/

/-- `Point { x, y }` from the source: a (column, row) coordinate. -/
structure Point where
  x : Nat
  y : Nat
deriving DecidableEq

/-- `AoCGrid`: the grid's rows plus the cached width and height. -/
structure AoCGrid where
  lines : List (List Char)
  width : Nat
  height : Nat
deriving DecidableEq

/-- `AoCGrid::valid_coordinate`: `p.x < self.width && p.y < self.height`. -/
def AoCGrid.valid_coordinate (g : AoCGrid) (p : Point) : Prop :=
  p.x < g.width ∧ p.y < g.height

instance (g : AoCGrid) (p : Point) : Decidable (g.valid_coordinate p) :=
  inferInstanceAs (Decidable (_ ∧ _))

/-- Strip one trailing carriage return, as Rust's `str::lines` does for
each line terminated by a newline. -/
def stripTrailingCR (l : List Char) : List Char :=
  if l.getLast? = some '\r' then l.dropLast else l

/-- Accumulator-based splitter mirroring Rust's `str::lines`: lines are
split at each newline character, a carriage return directly before a
newline is stripped, and a final line ending is optional (no empty
trailing line is produced). -/
def splitLinesAux : List Char → List Char → List (List Char)
  | [], acc => if acc = [] then [] else [acc.reverse]
  | c :: t, acc =>
    if c = '\n' then stripTrailingCR acc.reverse :: splitLinesAux t []
    else splitLinesAux t (c :: acc)

/-- Rust's `input.lines().collect::<Vec<_>>()`. -/
def rustLines (s : List Char) : List (List Char) :=
  splitLinesAux s []

/-- `AoCGrid::new`: collects the input's lines, fails (Rust: panics)
when there is no line at all or when the lines are not all of the same
length, and otherwise records the common width and the number of
lines. -/
def AoCGrid.new (s : List Char) : Option AoCGrid :=
  let lines := rustLines s
  match lines.head? with
  | none => none
  | some first =>
    if lines.all (fun l => l.length = first.length) then
      some { lines := lines, width := first.length, height := lines.length }
    else none

/-- Rust `str::get(a..b)`: `Some` of the slice when the range is within
bounds (for the ASCII grids in scope every byte boundary is a char
boundary), `None` otherwise. -/
def strSlice (l : List Char) (a b : Nat) : Option (List Char) :=
  if a ≤ b ∧ b ≤ l.length then some ((l.drop a).take (b - a)) else none

/-- Rust `str::get(a..)`. -/
def strSliceFrom (l : List Char) (a : Nat) : Option (List Char) :=
  if a ≤ l.length then some (l.drop a) else none

/-- `AoCGrid::get`: the one-character slice at `p`, `None` out of bounds. -/
def AoCGrid.get (g : AoCGrid) (p : Point) : Option (List Char) :=
  if g.valid_coordinate p then
    (g.lines.get? p.y).bind (fun l => strSlice l p.x (p.x + 1))
  else none

/-- `AoCGrid::get_str`: the slice of `length` characters starting at
`p`; when the end point is out of the grid the rest of the row is
returned instead; `None` when `p` itself is invalid. -/
def AoCGrid.get_str (g : AoCGrid) (p : Point) (length : Nat) : Option (List Char) :=
  let e : Point := ⟨p.x + length, p.y⟩
  if g.valid_coordinate p then
    if g.valid_coordinate e then
      (g.lines.get? p.y).bind (fun l => strSlice l p.x e.x)
    else
      (g.lines.get? p.y).bind (fun l => strSliceFrom l p.x)
  else none

/-- `POSSIBLE_ADJACENCY` from `AoCGridAdjacentPoints::new`, in source
order: NW, N, NE, W, E, SW, S, SE (y grows downwards). -/
def adjOffsets : List (Int × Int) :=
  [(-1, -1), (0, -1), (1, -1), (-1, 0), (1, 0), (-1, 1), (0, 1), (1, 1)]

/-- One candidate neighbor: `checked_add_signed` on each component
(`none` when the sum would be negative) followed by the validity
check. -/
def adjCandidate (g : AoCGrid) (p : Point) (d : Int × Int) : Option Point :=
  if 0 ≤ (p.x : Int) + d.1 ∧ 0 ≤ (p.y : Int) + d.2 then
    let q : Point := ⟨((p.x : Int) + d.1).toNat, ((p.y : Int) + d.2).toNat⟩
    if g.valid_coordinate q then some q else none
  else none

/-- `AoCGridAdjacentPoints::new`: the valid neighbors of `p` in the
fixed offset order.  (The Rust constructor panics when `p` itself is
invalid; all uses below are at valid coordinates.) -/
def adjacentPoints (g : AoCGrid) (p : Point) : List Point :=
  adjOffsets.filterMap (adjCandidate g p)

/-- `AoCGridAdjacenyIterator` stops at the first `None` produced by
`AoCGrid::get`; this collects the prefix of `Some` results. -/
def collectWhileSome : List (Option (List Char)) → List (List Char)
  | [] => []
  | some a :: t => a :: collectWhileSome t
  | none :: _ => []

/-- `AoCGrid::adjacent`: the cell contents at the valid neighbors. -/
def adjacentStrs (g : AoCGrid) (p : Point) : List (List Char) :=
  collectWhileSome ((adjacentPoints g p).map (fun q => g.get q))

/-- `GridDataType`. -/
inductive GridDataType where
  | Digit : Nat → GridDataType
  | Symbol : GridDataType
  | Space : GridDataType
deriving DecidableEq

/-- `GridDataType::from_str`: errors on strings longer than one
character; `"."` is `Space`, a single digit is `Digit`, anything else
(including the empty string) is `Symbol`. -/
def GridDataType.from_str (s : List Char) : Option GridDataType :=
  if s.length > 1 then none
  else
    match s with
    | ['.'] => some GridDataType.Space
    | [c] =>
      if c.isDigit then some (GridDataType.Digit (c.toNat - 48))
      else some GridDataType.Symbol
    | _ => some GridDataType.Symbol

/-- The scanner's per-cell classification:
`grid.get(&p).unwrap().parse::<GridDataType>().expect(..)`, with the
panics modelled by defaults that are unreachable on valid points of a
well-formed grid. -/
def classifyCell (g : AoCGrid) (p : Point) : GridDataType :=
  (GridDataType.from_str ((g.get p).getD [])).getD GridDataType.Symbol

/-- `GridNumber`. -/
structure GridNumber where
  value : Nat
  start_coord : Point
  coord_length : Nat
deriving DecidableEq

/-- `get_coord_length` from the source. -/
def get_coord_length (start e : Point) (grid_width : Nat) : Nat :=
  if e.x < start.x ∧ start.y < e.y then grid_width - start.x
  else e.x - start.x

/-- Rust `str::parse::<u64>` restricted to plain digit strings: `some`
of the decimal value for a non-empty all-digit string, `none`
otherwise. -/
def parseU64 (s : List Char) : Option Nat :=
  if s ≠ [] ∧ s.all Char.isDigit then
    some (s.foldl (fun a c => a * 10 + (c.toNat - 48)) 0)
  else none

/-- Construction of an emitted `GridNumber`:
`value = get_str(start, len).expect(..).parse().expect(..)` with the
panics modelled by defaults. -/
def makeGridNumber (g : AoCGrid) (sc : Point) (len : Nat) : GridNumber :=
  { value := ((g.get_str sc len).bind parseU64).getD 0
    start_coord := sc
    coord_length := len }

/-- `GridNumberIterator::next_point` (also the successor used by
`GridIterator`): row-major successor, `none` after the last cell. -/
def nextPoint (g : AoCGrid) (p : Point) : Option Point :=
  if p.x = g.width - 1 then
    if p.y = g.height - 1 then none else some ⟨0, p.y + 1⟩
  else some ⟨p.x + 1, p.y⟩

/-- The body of `GridNumberIterator::next` fused with the iteration
that collects every emitted `GridNumber`.  `start?` is
`start_of_next_number` (a fresh `None` after each emission, exactly as
in the source, where it is a local of each `next` call), `p?` is
`self.point`.  The fuel argument only bounds the recursion; one unit
is spent per visited cell, so `width*height + 1` always suffices. -/
def collectNums (g : AoCGrid) : Nat → Option Point → Option Point → List GridNumber
  | 0, _, _ => []
  | fuel + 1, start?, p? =>
    match p? with
    | none =>
      match start? with
      | some sc => [makeGridNumber g sc (g.width - sc.x)]
      | none => []
    | some p =>
      let sr1 : Option Point × Option GridNumber :=
        match classifyCell g p with
        | GridDataType.Digit _ =>
          (match start? with
           | none => some p
           | some sc => some sc, none)
        | _ =>
          match start? with
          | some sc => (none, some (makeGridNumber g sc (get_coord_length sc p g.width)))
          | none => (none, none)
      let np := nextPoint g p
      let sr2 : Option Point × Option GridNumber :=
        match sr1.1, np with
        | some sc, some q =>
          if p.y < q.y then (none, some (makeGridNumber g sc (g.width - sc.x)))
          else (sr1.1, sr1.2)
        | _, _ => sr1
      match sr2.2 with
      | some n => n :: collectNums g fuel none np
      | none => collectNums g fuel sr2.1 np

/-- `EngineSchematic::grid_numbers` run to completion: the sequence of
`GridNumber`s produced by a fresh `GridNumberIterator` (initial point
`(0, 0)`, no open run). -/
def AoCGrid.grid_numbers (g : AoCGrid) : List GridNumber :=
  collectNums g (g.width * g.height + 1) none (some ⟨0, 0⟩)

/-- `GridNumberAdjacentData::new`: for each cell of the run, in order,
the contents of its valid neighbors. -/
def gridNumberAdjacentData (n : GridNumber) (g : AoCGrid) : List (List Char) :=
  (List.range n.coord_length).flatMap
    (fun i => adjacentStrs g ⟨n.start_coord.x + i, n.start_coord.y⟩)

/-- `GridNumber::part_number`: `Some(value)` iff some adjacent cell
classifies as `Symbol`. -/
def GridNumber.part_number (n : GridNumber) (g : AoCGrid) : Option Nat :=
  if (gridNumberAdjacentData n g).any
      (fun s => decide ((GridDataType.from_str s).getD GridDataType.Space = GridDataType.Symbol))
  then some n.value else none

/-- `part_number_lookup`: the `HashMap<Point, GridNumber>` modelled as
an association list where insertion prepends (so the most recent
insertion for a key wins on lookup).  One entry is inserted per cell of
each number that is a part number. -/
def part_number_lookup (g : AoCGrid) : List (Point × GridNumber) :=
  g.grid_numbers.foldl
    (fun m n =>
      if (n.part_number g).isSome then
        (List.range n.coord_length).foldl
          (fun m2 dx => (⟨n.start_coord.x + dx, n.start_coord.y⟩, n) :: m2) m
      else m)
    []

/-- `HashMap::get` on the association-list model. -/
def lookupGet (m : List (Point × GridNumber)) (q : Point) : Option GridNumber :=
  (m.find? (fun e => decide (e.1 = q))).map (fun e => e.2)

/-- `GridIterator` run to completion from its first emitted point. -/
def pointsFrom (g : AoCGrid) : Nat → Point → List Point
  | 0, _ => []
  | fuel + 1, p =>
    p :: (match nextPoint g p with
          | some q => pointsFrom g fuel q
          | none => [])

/-- All grid points in row-major order, as produced by `GridIterator`. -/
def gridPoints (g : AoCGrid) : List Point :=
  pointsFrom g (g.width * g.height) ⟨0, 0⟩

/-- `Gear`. -/
structure Gear where
  ratio : Nat
deriving DecidableEq

/-- `HashSet::insert` on an insertion-ordered list model: the length of
the list is the number of distinct elements inserted. -/
def insertSet (s : List GridNumber) (n : GridNumber) : List GridNumber :=
  if n ∈ s then s else s ++ [n]

/-- `GearIterator::new` run to completion: for every `*` cell (in
row-major order) collect the set of distinct `GridNumber`s reachable
from its neighbors through the part-number lookup; exactly two distinct
members produce a `Gear` whose ratio is the product of their values. -/
def AoCGrid.gears (g : AoCGrid) : List Gear :=
  let lookup := part_number_lookup g
  (gridPoints g).flatMap (fun p =>
    if (g.get p).getD [] = ['*'] then
      let s := (adjacentPoints g p).foldl
        (fun s2 q =>
          match lookupGet lookup q with
          | some n => insertSet s2 n
          | none => s2) []
      if s.length = 2 then [{ ratio := (s.map (fun n => n.value)).prod }]
      else []
    else [])

/-- `solve_one`: sum of `part_number(..).unwrap_or(0)` over all numbers. -/
def solve_one (g : AoCGrid) : Nat :=
  (g.grid_numbers.map (fun n => (n.part_number g).getD 0)).sum

/-- `solve_two`: sum of the gear ratios. -/
def solve_two (g : AoCGrid) : Nat :=
  (g.gears.map (fun gr => Gear.ratio gr)).sum

/-! ### Specification-side definitions

These follow the spec's wording (maximal digit runs per row, part
numbers via symbol adjacency, gears via distinct adjacent numbers) and
are compared with the source-side definitions above. -/

/-- Well-formed grid, per the spec's data model: at least one row, a
positive common row length, and cached width/height consistent with
the rows. -/
def WF (g : AoCGrid) : Prop :=
  0 < g.width ∧ 0 < g.height ∧ g.lines.length = g.height ∧
    ∀ l ∈ g.lines, l.length = g.width

instance (g : AoCGrid) : Decidable (WF g) :=
  inferInstanceAs (Decidable (_ ∧ _ ∧ _ ∧ _))

/-- The row at index `y` (junk default outside the grid). -/
def rowOf (g : AoCGrid) (y : Nat) : List Char :=
  g.lines.getD y []

/-- The character at column `x` of row `y` (junk default outside). -/
def cellAt (g : AoCGrid) (x y : Nat) : Char :=
  (rowOf g y).getD x '.'

/-- Modelled from the spec: the maximal digit runs of one row, scanning
left to right; `x` is the absolute column of the first character of
the suffix being scanned, `y` the row index. -/
def rowRuns (y : Nat) : Nat → List Char → List GridNumber
  | _, [] => []
  | x, c :: cs =>
    if c.isDigit then
      { value := (parseU64 (c :: cs.takeWhile Char.isDigit)).getD 0
        start_coord := ⟨x, y⟩
        coord_length := (c :: cs.takeWhile Char.isDigit).length }
        :: rowRuns y (x + (c :: cs.takeWhile Char.isDigit).length) (cs.dropWhile Char.isDigit)
    else rowRuns y (x + 1) cs
termination_by _x l => l.length
decreasing_by
  · simp only [List.length_cons]
    have h1 : (cs.dropWhile Char.isDigit).length ≤ cs.length :=
      (List.dropWhile_sublist Char.isDigit).length_le
    omega
  · simp only [List.length_cons]
    omega

/-- Modelled from the spec: all maximal digit runs of the rows with
index `≥ k`, in row-major order. -/
def tailRows (g : AoCGrid) (k : Nat) : List GridNumber :=
  (List.range (g.height - k)).flatMap (fun i => rowRuns (k + i) 0 (rowOf g (k + i)))

/-- Modelled from the spec: every maximal digit run of the grid, in
row-major scan order. -/
def specNumbers (g : AoCGrid) : List GridNumber :=
  tailRows g 0

/-- Two numbers' runs do not overlap: they live on different rows or
their column intervals are disjoint. -/
def disjointRuns (n m : GridNumber) : Prop :=
  n.start_coord.y ≠ m.start_coord.y ∨
    n.start_coord.x + n.coord_length ≤ m.start_coord.x ∨
    m.start_coord.x + m.coord_length ≤ n.start_coord.x

/-- A number's run covers the coordinate `q`. -/
def covers (n : GridNumber) (q : Point) : Prop :=
  n.start_coord.y = q.y ∧ n.start_coord.x ≤ q.x ∧ q.x < n.start_coord.x + n.coord_length

instance (n : GridNumber) (q : Point) : Decidable (covers n q) :=
  inferInstanceAs (Decidable (_ ∧ _ ∧ _))

/-- Spec classification of a character as `Symbol`: any non-digit,
non-dot character. -/
def isSymbolChar (c : Char) : Prop :=
  c ≠ '.' ∧ c.isDigit = false

instance (c : Char) : Decidable (isSymbolChar c) :=
  inferInstanceAs (Decidable (_ ∧ _))

/-- Modelled from the spec: the distinct numbers of the schematic that
are part numbers and whose run touches one of the 8 neighbors of `p`. -/
def adjacentPartNumbers (g : AoCGrid) (p : Point) : List GridNumber :=
  g.grid_numbers.filter
    (fun n => (n.part_number g).isSome &&
      (adjacentPoints g p).any (fun q => decide (covers n q)))

/-- Modelled from the spec: a gear for exactly those `*` cells with
exactly two distinct adjacent part numbers, ratio the product of their
values. -/
def gearsSpec (g : AoCGrid) : List Gear :=
  (gridPoints g).filterMap (fun p =>
    if cellAt g p.x p.y = '*' ∧ (adjacentPartNumbers g p).length = 2 then
      some { ratio := ((adjacentPartNumbers g p).map (fun n => n.value)).prod }
    else none)

/-- The spec's 10×10 end-to-end example input. -/
def exampleInput : String :=
  "467..114..\n...*......\n..35..633.\n......#...\n617*......\n.....+.58.\n..592.....\n......755.\n...$.*....\n.664.598.."

/-- The grid built from the example input. -/
def exampleGrid : AoCGrid :=
  (AoCGrid.new exampleInput.data).getD { lines := [], width := 0, height := 0 }

/-- The grid produced for the one-character input consisting of a
single newline. -/
def newlineGrid : AoCGrid :=
  { lines := [[]], width := 0, height := 1 }

/-- A small two-line input used as a construction witness. -/
def abInput : List Char :=
  ['a', 'b', '\n', 'c', 'd']

/-- The grid the constructor builds from `abInput`. -/
def gridAB : AoCGrid :=
  { lines := [['a', 'b'], ['c', 'd']], width := 2, height := 2 }

/-- The first number of the example grid (`467` at the origin). -/
def exampleNumber467 : GridNumber :=
  { value := 467, start_coord := ⟨0, 0⟩, coord_length := 3 }

/-! ### Basic grid lemmas -/

theorem rowOf_length {g : AoCGrid} (hWF : WF g) {y : Nat} (hy : y < g.height) :
    (rowOf g y).length = g.width := by
  have hy2 : y < g.lines.length := by rw [hWF.2.2.1]; exact hy
  have hrw : rowOf g y = g.lines[y] := List.getD_eq_getElem _ _ hy2
  rw [hrw]
  exact hWF.2.2.2 _ (List.getElem_mem hy2)

theorem lines_get?_eq {g : AoCGrid} (hWF : WF g) {y : Nat} (hy : y < g.height) :
    g.lines.get? y = some (rowOf g y) := by
  have hy2 : y < g.lines.length := by rw [hWF.2.2.1]; exact hy
  rw [List.get?_eq_getElem?, List.getElem?_eq_getElem hy2]
  congr 1
  exact (List.getD_eq_getElem _ _ hy2).symm

theorem drop_take_one {l : List Char} {x : Nat} (hx : x < l.length) :
    (l.drop x).take 1 = [l.getD x '.'] := by
  rw [List.drop_eq_getElem_cons hx, List.getD_eq_getElem _ _ hx]
  rfl

theorem get_eq_cell {g : AoCGrid} (hWF : WF g) {x y : Nat}
    (hx : x < g.width) (hy : y < g.height) :
    g.get ⟨x, y⟩ = some [cellAt g x y] := by
  have hvalid : g.valid_coordinate ⟨x, y⟩ := ⟨hx, hy⟩
  have hrow := rowOf_length hWF hy
  rw [AoCGrid.get, if_pos hvalid, lines_get?_eq hWF hy]
  simp only [Option.some_bind]
  rw [strSlice, if_pos (by constructor <;> omega)]
  congr 1
  have h1 : x + 1 - x = 1 := by omega
  rw [h1, drop_take_one (by omega)]
  rfl

theorem get_str_eq {g : AoCGrid} (hWF : WF g) {x y : Nat}
    (hx : x < g.width) (hy : y < g.height) (len : Nat) :
    g.get_str ⟨x, y⟩ len = some (((rowOf g y).drop x).take len) := by
  have hvalid : g.valid_coordinate ⟨x, y⟩ := ⟨hx, hy⟩
  have hrow := rowOf_length hWF hy
  by_cases he : x + len < g.width
  · have hv2 : g.valid_coordinate ⟨x + len, y⟩ := ⟨he, hy⟩
    rw [AoCGrid.get_str]
    simp only
    rw [if_pos hvalid, if_pos hv2, lines_get?_eq hWF hy]
    simp only [Option.some_bind]
    rw [strSlice, if_pos (by constructor <;> omega)]
    congr 2
    omega
  · have hv2 : ¬ g.valid_coordinate ⟨x + len, y⟩ := by
      intro h; exact he h.1
    rw [AoCGrid.get_str]
    simp only
    rw [if_pos hvalid, if_neg hv2, lines_get?_eq hWF hy]
    simp only [Option.some_bind]
    rw [strSliceFrom, if_pos (by omega)]
    congr 1
    have hlen : ((rowOf g y).drop x).length ≤ len := by
      rw [List.length_drop]; omega
    exact (List.take_of_length_le hlen).symm

theorem from_str_singleton (c : Char) :
    GridDataType.from_str [c] =
      some (if c = '.' then GridDataType.Space
            else if c.isDigit then GridDataType.Digit (c.toNat - 48)
            else GridDataType.Symbol) := by
  by_cases hc : c = '.'
  · subst hc; rfl
  · by_cases hd : c.isDigit
    · simp [GridDataType.from_str, hc, hd]
    · simp [GridDataType.from_str, hc, hd]

theorem classifyCell_eq {g : AoCGrid} (hWF : WF g) {x y : Nat}
    (hx : x < g.width) (hy : y < g.height) :
    classifyCell g ⟨x, y⟩ =
      (if cellAt g x y = '.' then GridDataType.Space
       else if (cellAt g x y).isDigit then GridDataType.Digit ((cellAt g x y).toNat - 48)
       else GridDataType.Symbol) := by
  rw [classifyCell, get_eq_cell hWF hx hy]
  simp only [Option.getD_some]
  rw [from_str_singleton]
  rfl

theorem classifyCell_digit {g : AoCGrid} (hWF : WF g) {x y : Nat}
    (hx : x < g.width) (hy : y < g.height) (h : (cellAt g x y).isDigit = true) :
    classifyCell g ⟨x, y⟩ = GridDataType.Digit ((cellAt g x y).toNat - 48) := by
  rw [classifyCell_eq hWF hx hy]
  have hne : cellAt g x y ≠ '.' := by
    intro hcontra
    rw [hcontra] at h
    simp [Char.isDigit] at h
  rw [if_neg hne, if_pos h]

theorem classifyCell_nondigit {g : AoCGrid} (hWF : WF g) {x y : Nat}
    (hx : x < g.width) (hy : y < g.height) (h : (cellAt g x y).isDigit = false) :
    classifyCell g ⟨x, y⟩ = GridDataType.Space ∨
      classifyCell g ⟨x, y⟩ = GridDataType.Symbol := by
  rw [classifyCell_eq hWF hx hy]
  by_cases hne : cellAt g x y = '.'
  · left; rw [if_pos hne]
  · right; rw [if_neg hne, if_neg (by simp [h])]

theorem makeGridNumber_eq {g : AoCGrid} (hWF : WF g) {x y : Nat}
    (hx : x < g.width) (hy : y < g.height) (len : Nat) :
    makeGridNumber g ⟨x, y⟩ len =
      { value := (parseU64 (((rowOf g y).drop x).take len)).getD 0
        start_coord := ⟨x, y⟩
        coord_length := len } := by
  rw [makeGridNumber, get_str_eq hWF hx hy]
  rfl

/-! ### Lemmas about maximal digit runs of a row -/

theorem takeWhile_append_of_all {P : Char → Bool} :
    ∀ (d r : List Char), (∀ c ∈ d, P c = true) →
      (∀ c, r.head? = some c → P c = false) →
      (d ++ r).takeWhile P = d ∧ (d ++ r).dropWhile P = r
  | [], r, _, hr => by
    cases r with
    | nil => exact ⟨rfl, rfl⟩
    | cons c t =>
      have hc : P c = false := hr c rfl
      constructor
      · simp only [List.nil_append]
        rw [List.takeWhile_cons_of_neg (by simp [hc])]
      · simp only [List.nil_append]
        rw [List.dropWhile_cons_of_neg (by simp [hc])]
  | c :: d, r, hd, hr => by
    have hc : P c = true := hd c (by simp)
    have ih := takeWhile_append_of_all d r (fun a ha => hd a (by simp [ha])) hr
    constructor
    · simp only [List.cons_append]
      rw [List.takeWhile_cons_of_pos hc, ih.1]
    · simp only [List.cons_append]
      rw [List.dropWhile_cons_of_pos hc, ih.2]

theorem takeWhile_length_add_dropWhile_length (P : Char → Bool) (l : List Char) :
    (l.takeWhile P).length + (l.dropWhile P).length = l.length := by
  have h := List.takeWhile_append_dropWhile (p := P) (l := l)
  calc (l.takeWhile P).length + (l.dropWhile P).length
      = (l.takeWhile P ++ l.dropWhile P).length := (List.length_append _ _).symm
    _ = l.length := by rw [h]

theorem rowRuns_nil (y x : Nat) : rowRuns y x [] = [] := by
  rw [rowRuns]

theorem rowRuns_cons_digit {c : Char} (h : c.isDigit = true) (y x : Nat) (cs : List Char) :
    rowRuns y x (c :: cs) =
      { value := (parseU64 (c :: cs.takeWhile Char.isDigit)).getD 0
        start_coord := ⟨x, y⟩
        coord_length := (c :: cs.takeWhile Char.isDigit).length }
        :: rowRuns y (x + (c :: cs.takeWhile Char.isDigit).length) (cs.dropWhile Char.isDigit) := by
  rw [rowRuns]
  simp [h]

theorem rowRuns_cons_nondigit {c : Char} (h : c.isDigit = false) (y x : Nat) (cs : List Char) :
    rowRuns y x (c :: cs) = rowRuns y (x + 1) cs := by
  rw [rowRuns]
  simp [h]

theorem rowRuns_run (y x : Nat) (d r : List Char) (hd : d ≠ [])
    (hdig : ∀ c ∈ d, c.isDigit = true)
    (hr : ∀ c, r.head? = some c → c.isDigit = false) :
    rowRuns y x (d ++ r) =
      { value := (parseU64 d).getD 0, start_coord := ⟨x, y⟩, coord_length := d.length }
        :: rowRuns y (x + d.length) r := by
  cases d with
  | nil => exact absurd rfl hd
  | cons c d2 =>
    have hc : c.isDigit = true := hdig c (by simp)
    have hsplit := takeWhile_append_of_all (P := Char.isDigit) d2 r
      (fun a ha => hdig a (by simp [ha])) hr
    rw [List.cons_append, rowRuns_cons_digit hc, hsplit.1, hsplit.2]

theorem rowRuns_mem_bounds (y : Nat) :
    ∀ (k : Nat) (l : List Char), l.length ≤ k → ∀ (x : Nat), ∀ n ∈ rowRuns y x l,
      n.start_coord.y = y ∧ x ≤ n.start_coord.x ∧ 0 < n.coord_length ∧
        n.start_coord.x + n.coord_length ≤ x + l.length := by
  intro k
  induction k with
  | zero =>
    intro l hl x n hn
    have : l = [] := List.length_eq_zero.mp (by omega)
    subst this
    rw [rowRuns_nil] at hn
    exact absurd hn (List.not_mem_nil n)
  | succ k ih =>
    intro l hl x n hn
    cases l with
    | nil =>
      rw [rowRuns_nil] at hn
      exact absurd hn (List.not_mem_nil n)
    | cons c cs =>
      by_cases hc : c.isDigit
      · rw [rowRuns_cons_digit hc] at hn
        rcases List.mem_cons.mp hn with h | h
        · subst h
          have htw : (cs.takeWhile Char.isDigit).length ≤ cs.length :=
            (List.takeWhile_sublist Char.isDigit).length_le
          refine ⟨rfl, le_refl x, by simp, ?_⟩
          simp only [List.length_cons]
          omega
        · have hdw : (cs.dropWhile Char.isDigit).length ≤ cs.length :=
            (List.dropWhile_sublist Char.isDigit).length_le
          have hlen : (cs.dropWhile Char.isDigit).length ≤ k := by
            simp only [List.length_cons] at hl
            omega
          have hsum := takeWhile_length_add_dropWhile_length Char.isDigit cs
          obtain ⟨h1, h2, h3, h4⟩ := ih (cs.dropWhile Char.isDigit) hlen _ n h
          refine ⟨h1, ?_, h3, ?_⟩
          · simp only [List.length_cons] at h2 ⊢
            omega
          · simp only [List.length_cons] at h4 ⊢
            omega
      · rw [rowRuns_cons_nondigit (by simpa using hc)] at hn
        have hlen : cs.length ≤ k := by
          simp only [List.length_cons] at hl
          omega
        obtain ⟨h1, h2, h3, h4⟩ := ih cs hlen (x + 1) n hn
        refine ⟨h1, by omega, h3, ?_⟩
        simp only [List.length_cons]
        omega

theorem rowRuns_pairwise (y : Nat) :
    ∀ (k : Nat) (l : List Char), l.length ≤ k → ∀ (x : Nat),
      List.Pairwise (fun n m => n.start_coord.x + n.coord_length ≤ m.start_coord.x)
        (rowRuns y x l) := by
  intro k
  induction k with
  | zero =>
    intro l hl x
    have : l = [] := List.length_eq_zero.mp (by omega)
    subst this
    rw [rowRuns_nil]
    exact List.Pairwise.nil
  | succ k ih =>
    intro l hl x
    cases l with
    | nil =>
      rw [rowRuns_nil]
      exact List.Pairwise.nil
    | cons c cs =>
      by_cases hc : c.isDigit
      · rw [rowRuns_cons_digit hc]
        have hlen : (cs.dropWhile Char.isDigit).length ≤ k := by
          have := (List.dropWhile_sublist (l := cs) Char.isDigit).length_le
          simp only [List.length_cons] at hl
          omega
        refine List.Pairwise.cons ?_ (ih _ hlen _)
        intro m hm
        have := (rowRuns_mem_bounds y k _ hlen _ m hm).2.1
        simpa using this
      · rw [rowRuns_cons_nondigit (by simpa using hc)]
        have hlen : cs.length ≤ k := by
          simp only [List.length_cons] at hl
          omega
        exact ih cs hlen (x + 1)

theorem rowRuns_cover (y : Nat) :
    ∀ (k : Nat) (l : List Char), l.length ≤ k → ∀ (x j : Nat), x ≤ j → j < x + l.length →
      ((l.getD (j - x) '.').isDigit = true ↔
        ∃ n ∈ rowRuns y x l, n.start_coord.x ≤ j ∧ j < n.start_coord.x + n.coord_length) := by
  intro k
  induction k with
  | zero =>
    intro l hl x j hxj hj
    have : l = [] := List.length_eq_zero.mp (by omega)
    subst this
    simp at hj
    omega
  | succ k ih =>
    intro l hl x j hxj hj
    cases l with
    | nil => simp at hj; omega
    | cons c cs =>
      simp only [List.length_cons] at hl hj
      by_cases hc : c.isDigit
      · -- the head starts a run d = c :: takeWhile, rest r = dropWhile
        have hsum := takeWhile_length_add_dropWhile_length Char.isDigit cs
        have hdw : (cs.dropWhile Char.isDigit).length ≤ cs.length :=
          (List.dropWhile_sublist Char.isDigit).length_le
        set d : List Char := c :: cs.takeWhile Char.isDigit with hd
        set r : List Char := cs.dropWhile Char.isDigit with hr
        have hdr : c :: cs = d ++ r := by
          rw [hd, hr, List.cons_append, List.takeWhile_append_dropWhile]
        have hdl : d.length = (List.takeWhile Char.isDigit cs).length + 1 := by
          rw [hd]; simp
        have hddig : ∀ a ∈ d, a.isDigit = true := by
          intro a ha
          rcases List.mem_cons.mp ha with h | h
          · subst h; exact hc
          · exact List.mem_takeWhile_imp h
        rw [rowRuns_cons_digit hc]
        by_cases hjd : j < x + d.length
        · -- j is inside the head run
          constructor
          · intro _
            refine ⟨_, List.mem_cons_self _ _, ?_, ?_⟩
            · simpa using hxj
            · simp only [List.length_cons] at hjd ⊢
              omega
          · intro _
            -- the character at j is one of d, hence a digit
            have hidx : j - x < d.length := by omega
            have : (c :: cs).getD (j - x) '.' = d.getD (j - x) '.' := by
              rw [hdr]
              rw [List.getD_eq_getElem _ _ (by simp [List.length_append]; omega),
                  List.getD_eq_getElem _ _ (by omega)]
              exact List.getElem_append_left hidx
            rw [this, List.getD_eq_getElem _ _ hidx]
            exact hddig _ (List.getElem_mem hidx)
        · -- j is past the head run
          have hidx : d.length ≤ j - x := by omega
          have hgetd : (c :: cs).getD (j - x) '.' = r.getD (j - x - d.length) '.' := by
            rw [hdr]
            by_cases hjr : j - x < d.length + r.length
            · rw [List.getD_eq_getElem _ _ (by simp [List.length_append]; omega),
                  List.getD_eq_getElem _ _ (by omega)]
              rw [List.getElem_append_right hidx]
            · have h1 : (d ++ r).getD (j - x) '.' = '.' :=
                List.getD_eq_default _ _ (by simp [List.length_append]; omega)
              have h2 : r.getD (j - x - d.length) '.' = '.' :=
                List.getD_eq_default _ _ (by omega)
              rw [h1, h2]
          have hrec := ih r (by omega) (x + d.length) j (by omega) (by omega)
          rw [hgetd]
          have harith : j - (x + d.length) = j - x - d.length := by omega
          rw [harith] at hrec
          rw [hrec]
          constructor
          · intro ⟨n, hn, hle, hlt⟩
            exact ⟨n, List.mem_cons_of_mem _ hn, hle, hlt⟩
          · intro ⟨n, hn, hle, hlt⟩
            rcases List.mem_cons.mp hn with h | h
            · subst h
              simp at hle hlt
              omega
            · exact ⟨n, h, hle, hlt⟩
      · -- head is not a digit
        have hcb : c.isDigit = false := by simpa using hc
        rw [rowRuns_cons_nondigit hcb]
        by_cases hjx : j = x
        · subst hjx
          simp only [Nat.sub_self, List.getD_cons_zero]
          constructor
          · intro h
            rw [hcb] at h
            exact absurd h (by simp)
          · intro ⟨n, hn, hle, hlt⟩
            have := (rowRuns_mem_bounds y k cs (by omega) (j + 1) n hn).2.1
            omega
        · have hgetd : (c :: cs).getD (j - x) '.' = cs.getD (j - (x + 1)) '.' := by
            have h1 : j - x = (j - (x + 1)) + 1 := by omega
            rw [h1, List.getD_cons_succ]
          rw [hgetd]
          exact ih cs (by omega) (x + 1) j (by omega) (by omega)

/-! ### Lemmas about the row-major run list -/

theorem tailRows_end {g : AoCGrid} {k : Nat} (hk : g.height ≤ k) : tailRows g k = [] := by
  rw [tailRows, Nat.sub_eq_zero_of_le hk]
  rfl

theorem tailRows_eq_cons {g : AoCGrid} {k : Nat} (hk : k < g.height) :
    tailRows g k = rowRuns k 0 (rowOf g k) ++ tailRows g (k + 1) := by
  rw [tailRows, tailRows]
  have h1 : g.height - k = (g.height - (k + 1)) + 1 := by omega
  rw [h1, List.range_succ_eq_map, List.flatMap_cons]
  have hhead : k + 0 = k := Nat.add_zero k
  rw [hhead]
  have htail : (List.map Nat.succ (List.range (g.height - (k + 1)))).flatMap
        (fun i => rowRuns (k + i) 0 (rowOf g (k + i))) =
      (List.range (g.height - (k + 1))).flatMap
        (fun i => rowRuns (k + 1 + i) 0 (rowOf g (k + 1 + i))) := by
    rw [List.flatMap_map]
    apply List.flatMap_congr
    intro i _
    have h2 : k + Nat.succ i = k + 1 + i := by omega
    show rowRuns (k + Nat.succ i) 0 (rowOf g (k + Nat.succ i)) = _
    rw [h2]
  rw [htail]

theorem tailRows_mem {g : AoCGrid} :
    ∀ (m k : Nat), g.height - k = m → ∀ n ∈ tailRows g k,
      k ≤ n.start_coord.y ∧ n.start_coord.y < g.height ∧
        n ∈ rowRuns n.start_coord.y 0 (rowOf g n.start_coord.y) := by
  intro m
  induction m with
  | zero =>
    intro k hk n hn
    rw [tailRows_end (by omega)] at hn
    exact absurd hn (List.not_mem_nil n)
  | succ m ih =>
    intro k hk n hn
    rw [tailRows_eq_cons (by omega)] at hn
    rcases List.mem_append.mp hn with h | h
    · have hy := (rowRuns_mem_bounds k (rowOf g k).length _ (le_refl _) 0 n h).1
      exact ⟨by omega, by omega, by rw [hy]; exact h⟩
    · obtain ⟨h1, h2, h3⟩ := ih (k + 1) (by omega) n h
      exact ⟨by omega, h2, h3⟩

theorem tailRows_pairwise {g : AoCGrid} :
    ∀ (m k : Nat), g.height - k = m →
      List.Pairwise disjointRuns (tailRows g k) := by
  intro m
  induction m with
  | zero =>
    intro k hk
    rw [tailRows_end (by omega)]
    exact List.Pairwise.nil
  | succ m ih =>
    intro k hk
    rw [tailRows_eq_cons (by omega)]
    rw [List.pairwise_append]
    refine ⟨?_, ih (k + 1) (by omega), ?_⟩
    · have hrow := rowRuns_pairwise k (rowOf g k).length (rowOf g k) (le_refl _) 0
      apply hrow.imp
      intro a b hab
      right; left; exact hab
    · intro a ha b hb
      have hay := (rowRuns_mem_bounds k (rowOf g k).length _ (le_refl _) 0 a ha).1
      have hby := (tailRows_mem m (k + 1) (by omega) b hb).1
      left
      omega

/-! ### Stepping lemmas for the scanner -/

theorem nextPoint_mid {g : AoCGrid} {x y : Nat} (h : x + 1 < g.width) :
    nextPoint g ⟨x, y⟩ = some ⟨x + 1, y⟩ := by
  rw [nextPoint]
  have hpx : (⟨x, y⟩ : Point).x = x := rfl
  rw [hpx]
  exact if_neg (by omega)

theorem nextPoint_rowend {g : AoCGrid} {x y : Nat} (hx : x + 1 = g.width)
    (hy : y + 1 < g.height) : nextPoint g ⟨x, y⟩ = some ⟨0, y + 1⟩ := by
  rw [nextPoint]
  have hpx : (⟨x, y⟩ : Point).x = x := rfl
  have hpy : (⟨x, y⟩ : Point).y = y := rfl
  rw [hpx, hpy, if_pos (by omega : x = g.width - 1)]
  exact if_neg (by omega)

theorem nextPoint_last {g : AoCGrid} {x y : Nat} (hx : x + 1 = g.width)
    (hy : y + 1 = g.height) : nextPoint g ⟨x, y⟩ = none := by
  rw [nextPoint]
  have hpx : (⟨x, y⟩ : Point).x = x := rfl
  have hpy : (⟨x, y⟩ : Point).y = y := rfl
  rw [hpx, hpy, if_pos (by omega : x = g.width - 1)]
  exact if_pos (by omega)

theorem drop_cons_cell {g : AoCGrid} (hWF : WF g) {x y : Nat}
    (hx : x < g.width) (hy : y < g.height) :
    (rowOf g y).drop x = cellAt g x y :: (rowOf g y).drop (x + 1) := by
  have hlen : x < (rowOf g y).length := by rw [rowOf_length hWF hy]; exact hx
  rw [List.drop_eq_getElem_cons hlen]
  congr 1
  exact (List.getD_eq_getElem _ _ hlen).symm

theorem take_digits {g : AoCGrid} (hWF : WF g) {y : Nat} (hy : y < g.height)
    {a m : Nat} (hbound : a + m ≤ g.width)
    (hdig : ∀ j, a ≤ j → j < a + m → (cellAt g j y).isDigit = true) :
    ∀ c ∈ ((rowOf g y).drop a).take m, c.isDigit = true := by
  intro c hc
  have hrow := rowOf_length hWF hy
  rw [List.mem_iff_getElem] at hc
  obtain ⟨i, hi, hci⟩ := hc
  have him : i < m := by
    simp only [List.length_take, List.length_drop] at hi
    omega
  have hai : a + i < (rowOf g y).length := by omega
  have hc2 : c = (rowOf g y)[a + i] := by
    rw [← hci, List.getElem_take, List.getElem_drop]
  have hc3 : c = cellAt g (a + i) y := by
    rw [hc2, cellAt, List.getD_eq_getElem _ _ hai]
  rw [hc3]
  exact hdig (a + i) (by omega) (by omega)

theorem drop_digits {g : AoCGrid} (hWF : WF g) {y : Nat} (hy : y < g.height)
    {a : Nat} (hdig : ∀ j, a ≤ j → j < g.width → (cellAt g j y).isDigit = true) :
    ∀ c ∈ (rowOf g y).drop a, c.isDigit = true := by
  intro c hc
  have hrow := rowOf_length hWF hy
  rw [List.mem_iff_getElem] at hc
  obtain ⟨i, hi, hci⟩ := hc
  have hai : a + i < (rowOf g y).length := by
    simp only [List.length_drop] at hi
    omega
  have hc2 : c = (rowOf g y)[a + i] := by
    rw [← hci, List.getElem_drop]
  have hc3 : c = cellAt g (a + i) y := by
    rw [hc2, cellAt, List.getD_eq_getElem _ _ hai]
  rw [hc3]
  exact hdig (a + i) (by omega) (by omega)

theorem linIdx_lt {W H x y : Nat} (hx : x < W) (hy : y < H) : y * W + x < W * H := by
  have h1 : y + 1 ≤ H := hy
  have h2 : (y + 1) * W ≤ H * W := Nat.mul_le_mul_right _ h1
  have h3 : (y + 1) * W = y * W + W := by ring
  have h4 : H * W = W * H := Nat.mul_comm _ _
  omega

theorem collect_spec {g : AoCGrid} (hWF : WF g) :
    ∀ (fuel x y : Nat) (start? : Option Point),
      x < g.width → y < g.height →
      g.width * g.height - (y * g.width + x) < fuel →
      (∀ sc, start? = some sc → sc.y = y ∧ sc.x < x ∧
        ∀ j, sc.x ≤ j → j < x → (cellAt g j y).isDigit = true) →
      collectNums g fuel start? (some ⟨x, y⟩) =
        (match start? with
         | none => rowRuns y x ((rowOf g y).drop x)
         | some sc => rowRuns y sc.x ((rowOf g y).drop sc.x)) ++ tailRows g (y + 1) := by
  intro fuel
  induction fuel with
  | zero =>
    intro x y start? hx hy hfuel _
    exact absurd hfuel (by omega)
  | succ fuel ih =>
    intro x y start? hx hy hfuel hinv
    have hrow := rowOf_length hWF hy
    have hlin := linIdx_lt hx hy
    cases start? with
    | none =>
      rw [collectNums]
      dsimp only
      by_cases hdig : (cellAt g x y).isDigit = true
      · -- digit cell, no open run: open one at x
        rw [classifyCell_digit hWF hx hy hdig]
        dsimp only
        by_cases hxe : x + 1 < g.width
        · -- A1: middle of the row, continue scanning
          rw [nextPoint_mid hxe]
          dsimp only
          rw [if_neg (lt_irrefl y)]
          have hrec := ih (x + 1) y (some ⟨x, y⟩) hxe hy (by omega)
            (by
              intro sc' hsc'
              cases hsc'
              refine ⟨rfl, ?_, ?_⟩
              · show x < x + 1
                omega
              · show ∀ j, x ≤ j → j < x + 1 → (cellAt g j y).isDigit = true
                intro j hj1 hj2
                have hjx : j = x := by omega
                rw [hjx]; exact hdig)
          rw [hrec]
        · by_cases hye : y + 1 < g.height
          · -- A2: last column, open run closes at end of row
            have hxw : x + 1 = g.width := by omega
            rw [nextPoint_rowend hxw hye]
            dsimp only
            rw [if_pos (Nat.lt_succ_self y)]
            have hmul : (y + 1) * g.width = y * g.width + g.width := by ring
            have hrec := ih 0 (y + 1) none hWF.1 hye (by omega)
              (by intro sc' hsc'; cases hsc')
            rw [hrec]
            rw [List.drop_zero] at hrec ⊢
            -- RHS: runs of row y from x form the single run to end of row
            have hdlen : ((rowOf g y).drop x).length = g.width - x := by
              rw [List.length_drop, hrow]
            have hdne : (rowOf g y).drop x ≠ [] := by
              intro hnil
              rw [hnil] at hdlen
              simp at hdlen
              omega
            have hdall : ∀ c ∈ (rowOf g y).drop x, c.isDigit = true := by
              apply drop_digits hWF hy
              intro j hj1 hj2
              have hjx : j = x := by omega
              rw [hjx]; exact hdig
            have hrr := rowRuns_run y x ((rowOf g y).drop x) [] hdne hdall
              (by intro c hc; simp at hc)
            rw [List.append_nil] at hrr
            rw [hrr, rowRuns_nil]
            rw [makeGridNumber_eq hWF hx hy]
            rw [tailRows_eq_cons hye]
            have htake : ((rowOf g y).drop x).take (g.width - x) = (rowOf g y).drop x :=
              List.take_of_length_le (by omega)
            rw [htake, hdlen]
            rfl
          · -- A3: last cell of the grid, final emission after the loop
            have hxw : x + 1 = g.width := by omega
            have hyh : y + 1 = g.height := by omega
            rw [nextPoint_last hxw hyh]
            dsimp only
            have hprod : g.width * g.height = y * g.width + g.width := by
              rw [← hyh]; ring
            cases fuel with
            | zero => exact absurd hfuel (by omega)
            | succ fuel2 =>
              rw [collectNums]
              dsimp only
              rw [tailRows_end (by omega), List.append_nil]
              have hdlen : ((rowOf g y).drop x).length = g.width - x := by
                rw [List.length_drop, hrow]
              have hdne : (rowOf g y).drop x ≠ [] := by
                intro hnil
                rw [hnil] at hdlen
                simp at hdlen
                omega
              have hdall : ∀ c ∈ (rowOf g y).drop x, c.isDigit = true := by
                apply drop_digits hWF hy
                intro j hj1 hj2
                have hjx : j = x := by omega
                rw [hjx]; exact hdig
              have hrr := rowRuns_run y x ((rowOf g y).drop x) [] hdne hdall
                (by intro c hc; simp at hc)
              rw [List.append_nil] at hrr
              rw [hrr, rowRuns_nil]
              rw [makeGridNumber_eq hWF hx hy]
              have htake : ((rowOf g y).drop x).take (g.width - x) = (rowOf g y).drop x :=
                List.take_of_length_le (by omega)
              rw [htake, hdlen]
      · -- non-digit cell, no open run: skip
        have hdigf : (cellAt g x y).isDigit = false := by
          simpa using hdig
        have hskip : rowRuns y x ((rowOf g y).drop x) =
            rowRuns y (x + 1) ((rowOf g y).drop (x + 1)) := by
          rw [drop_cons_cell hWF hx hy, rowRuns_cons_nondigit hdigf]
        suffices hsuf : collectNums g fuel none (nextPoint g ⟨x, y⟩) =
            rowRuns y x ((rowOf g y).drop x) ++ tailRows g (y + 1) by
          rcases classifyCell_nondigit hWF hx hy hdigf with h | h <;> rw [h] <;> exact hsuf
        by_cases hxe : x + 1 < g.width
        · -- C1
          rw [nextPoint_mid hxe, hskip]
          exact ih (x + 1) y none hxe hy (by omega) (by intro sc' hsc'; cases hsc')
        · by_cases hye : y + 1 < g.height
          · -- C2
            have hxw : x + 1 = g.width := by omega
            rw [nextPoint_rowend hxw hye, hskip]
            have hmul : (y + 1) * g.width = y * g.width + g.width := by ring
            have hrec := ih 0 (y + 1) none hWF.1 hye (by omega)
              (by intro sc' hsc'; cases hsc')
            rw [hrec]
            rw [List.drop_zero] at hrec ⊢
            have hempty : (rowOf g y).drop (x + 1) = [] := by
              have : ((rowOf g y).drop (x + 1)).length = 0 := by
                rw [List.length_drop, hrow]; omega
              exact List.length_eq_zero.mp this
            rw [hempty, rowRuns_nil, tailRows_eq_cons hye]
            rfl
          · -- C3
            have hxw : x + 1 = g.width := by omega
            have hyh : y + 1 = g.height := by omega
            rw [nextPoint_last hxw hyh, hskip]
            have hprod : g.width * g.height = y * g.width + g.width := by
              rw [← hyh]; ring
            cases fuel with
            | zero => exact absurd hfuel (by omega)
            | succ fuel2 =>
              rw [collectNums]
              have hempty : (rowOf g y).drop (x + 1) = [] := by
                have : ((rowOf g y).drop (x + 1)).length = 0 := by
                  rw [List.length_drop, hrow]; omega
                exact List.length_eq_zero.mp this
              rw [hempty, rowRuns_nil, tailRows_end (by omega)]
              rfl
    | some sc =>
      obtain ⟨hscy0, hscx0, hscdig0⟩ := hinv sc rfl
      obtain ⟨sx, sy⟩ := sc
      have hscx : sx < x := hscx0
      have hscdig : ∀ j, sx ≤ j → j < x → (cellAt g j y).isDigit = true := hscdig0
      have hscy : sy = y := hscy0
      subst hscy
      have hsxw : sx < g.width := by omega
      rw [collectNums]
      dsimp only
      by_cases hdig : (cellAt g x sy).isDigit = true
      · -- digit cell with an open run: the run keeps growing
        rw [classifyCell_digit hWF hx hy hdig]
        dsimp only
        by_cases hxe : x + 1 < g.width
        · -- B1
          rw [nextPoint_mid hxe]
          dsimp only
          rw [if_neg (lt_irrefl sy)]
          have hrec := ih (x + 1) sy (some ⟨sx, sy⟩) hxe hy (by omega)
            (by
              intro sc' hsc'
              cases hsc'
              refine ⟨rfl, by omega, fun j hj1 hj2 => ?_⟩
              by_cases hjx : j = x
              · rw [hjx]; exact hdig
              · exact hscdig j hj1 (by omega))
          rw [hrec]
        · by_cases hye : sy + 1 < g.height
          · -- B2: run closes at the end of the row
            have hxw : x + 1 = g.width := by omega
            rw [nextPoint_rowend hxw hye]
            dsimp only
            rw [if_pos (Nat.lt_succ_self sy)]
            have hmul : (sy + 1) * g.width = sy * g.width + g.width := by ring
            have hrec := ih 0 (sy + 1) none hWF.1 hye (by omega)
              (by intro sc' hsc'; cases hsc')
            rw [hrec]
            rw [List.drop_zero] at hrec ⊢
            have hdlen : ((rowOf g sy).drop sx).length = g.width - sx := by
              rw [List.length_drop, hrow]
            have hdne : (rowOf g sy).drop sx ≠ [] := by
              intro hnil
              rw [hnil] at hdlen
              simp at hdlen
              omega
            have hdall : ∀ c ∈ (rowOf g sy).drop sx, c.isDigit = true := by
              apply drop_digits hWF hy
              intro j hj1 hj2
              by_cases hjx : j = x
              · rw [hjx]; exact hdig
              · exact hscdig j hj1 (by omega)
            have hrr := rowRuns_run sy sx ((rowOf g sy).drop sx) [] hdne hdall
              (by intro c hc; simp at hc)
            rw [List.append_nil] at hrr
            rw [hrr, rowRuns_nil]
            rw [makeGridNumber_eq hWF hsxw hy]
            rw [tailRows_eq_cons hye]
            have htake : ((rowOf g sy).drop sx).take (g.width - sx) = (rowOf g sy).drop sx :=
              List.take_of_length_le (by omega)
            rw [htake, hdlen]
            rfl
          · -- B3: run closes at the end of the grid
            have hxw : x + 1 = g.width := by omega
            have hyh : sy + 1 = g.height := by omega
            rw [nextPoint_last hxw hyh]
            dsimp only
            have hprod : g.width * g.height = sy * g.width + g.width := by
              rw [← hyh]; ring
            cases fuel with
            | zero => exact absurd hfuel (by omega)
            | succ fuel2 =>
              rw [collectNums]
              dsimp only
              rw [tailRows_end (by omega), List.append_nil]
              have hdlen : ((rowOf g sy).drop sx).length = g.width - sx := by
                rw [List.length_drop, hrow]
              have hdne : (rowOf g sy).drop sx ≠ [] := by
                intro hnil
                rw [hnil] at hdlen
                simp at hdlen
                omega
              have hdall : ∀ c ∈ (rowOf g sy).drop sx, c.isDigit = true := by
                apply drop_digits hWF hy
                intro j hj1 hj2
                by_cases hjx : j = x
                · rw [hjx]; exact hdig
                · exact hscdig j hj1 (by omega)
              have hrr := rowRuns_run sy sx ((rowOf g sy).drop sx) [] hdne hdall
                (by intro c hc; simp at hc)
              rw [List.append_nil] at hrr
              rw [hrr, rowRuns_nil]
              rw [makeGridNumber_eq hWF hsxw hy]
              have htake : ((rowOf g sy).drop sx).take (g.width - sx) = (rowOf g sy).drop sx :=
                List.take_of_length_le (by omega)
              rw [htake, hdlen]
      · -- non-digit cell with an open run: emit the run ending at x
        have hdigf : (cellAt g x sy).isDigit = false := by
          simpa using hdig
        have hgcl : get_coord_length ⟨sx, sy⟩ ⟨x, sy⟩ g.width = x - sx := by
          rw [get_coord_length, if_neg]
          rintro ⟨h1, h2⟩
          exact absurd h2 (lt_irrefl sy)
        suffices hsuf : makeGridNumber g ⟨sx, sy⟩ (get_coord_length ⟨sx, sy⟩ ⟨x, sy⟩ g.width) ::
            collectNums g fuel none (nextPoint g ⟨x, sy⟩) =
            rowRuns sy sx ((rowOf g sy).drop sx) ++ tailRows g (sy + 1) by
          rcases classifyCell_nondigit hWF hx hy hdigf with h | h <;> rw [h] <;> exact hsuf
        rw [hgcl]
        -- decompose the suffix at sx into the run [sx, x) and the rest
        have hdd : ((rowOf g sy).drop sx).drop (x - sx) = (rowOf g sy).drop x := by
          rw [List.drop_drop]
          congr 1
          omega
        have hsplit := (List.take_append_drop (x - sx) ((rowOf g sy).drop sx)).symm
        rw [hdd] at hsplit
        have hdlen : (((rowOf g sy).drop sx).take (x - sx)).length = x - sx := by
          rw [List.length_take, List.length_drop, hrow]
          omega
        have hdne : ((rowOf g sy).drop sx).take (x - sx) ≠ [] := by
          intro hnil
          rw [hnil] at hdlen
          simp at hdlen
          omega
        have hdall : ∀ c ∈ ((rowOf g sy).drop sx).take (x - sx), c.isDigit = true := by
          apply take_digits hWF hy (by omega)
          intro j hj1 hj2
          exact hscdig j hj1 (by omega)
        have hrhead : ∀ c, ((rowOf g sy).drop x).head? = some c → c.isDigit = false := by
          rw [drop_cons_cell hWF hx hy]
          intro c hc
          have hcc : c = cellAt g x sy := by
            simp only [List.head?_cons] at hc
            exact (Option.some_inj.mp hc).symm
          rw [hcc]
          exact hdigf
        have hrr := rowRuns_run sy sx (((rowOf g sy).drop sx).take (x - sx))
          ((rowOf g sy).drop x) hdne hdall hrhead
        rw [hsplit, hrr, hdlen]
        have hsx2 : sx + (x - sx) = x := by omega
        rw [hsx2]
        rw [makeGridNumber_eq hWF hsxw hy]
        have hskip : rowRuns sy x ((rowOf g sy).drop x) =
            rowRuns sy (x + 1) ((rowOf g sy).drop (x + 1)) := by
          rw [drop_cons_cell hWF hx hy, rowRuns_cons_nondigit hdigf]
        rw [List.cons_append]
        -- heads are equal; tails by the induction hypothesis
        by_cases hxe : x + 1 < g.width
        · -- D1
          rw [nextPoint_mid hxe, hskip]
          have hrec := ih (x + 1) sy none hxe hy (by omega)
            (by intro sc' hsc'; cases hsc')
          rw [hrec]
        · by_cases hye : sy + 1 < g.height
          · -- D2
            have hxw : x + 1 = g.width := by omega
            rw [nextPoint_rowend hxw hye, hskip]
            have hmul : (sy + 1) * g.width = sy * g.width + g.width := by ring
            have hrec := ih 0 (sy + 1) none hWF.1 hye (by omega)
              (by intro sc' hsc'; cases hsc')
            rw [hrec]
            rw [List.drop_zero] at hrec ⊢
            have hempty : (rowOf g sy).drop (x + 1) = [] := by
              have : ((rowOf g sy).drop (x + 1)).length = 0 := by
                rw [List.length_drop, hrow]; omega
              exact List.length_eq_zero.mp this
            rw [hempty, rowRuns_nil, tailRows_eq_cons hye]
            rfl
          · -- D3
            have hxw : x + 1 = g.width := by omega
            have hyh : sy + 1 = g.height := by omega
            rw [nextPoint_last hxw hyh, hskip]
            have hprod : g.width * g.height = sy * g.width + g.width := by
              rw [← hyh]; ring
            cases fuel with
            | zero => exact absurd hfuel (by omega)
            | succ fuel2 =>
              rw [collectNums]
              have hempty : (rowOf g sy).drop (x + 1) = [] := by
                have : ((rowOf g sy).drop (x + 1)).length = 0 := by
                  rw [List.length_drop, hrow]; omega
                exact List.length_eq_zero.mp this
              rw [hempty, rowRuns_nil, tailRows_end (by omega)]
              rfl

theorem grid_numbers_eq_spec {g : AoCGrid} (hWF : WF g) :
    g.grid_numbers = specNumbers g := by
  rw [AoCGrid.grid_numbers]
  have h := collect_spec hWF (g.width * g.height + 1) 0 0 none hWF.1 hWF.2.1
    (by omega) (by intro sc hsc; cases hsc)
  rw [h]
  dsimp only
  rw [List.drop_zero, specNumbers, tailRows_eq_cons hWF.2.1]

theorem grid_numbers_bounds {g : AoCGrid} (hWF : WF g) :
    ∀ n ∈ g.grid_numbers, n.start_coord.y < g.height ∧ 0 < n.coord_length ∧
      n.start_coord.x + n.coord_length ≤ g.width := by
  intro n hn
  rw [grid_numbers_eq_spec hWF, specNumbers] at hn
  obtain ⟨h1, h2, h3⟩ := tailRows_mem g.height 0 (by omega) n hn
  have hb := rowRuns_mem_bounds n.start_coord.y (rowOf g n.start_coord.y).length _
    (le_refl _) 0 n h3
  have hrow := rowOf_length hWF h2
  exact ⟨h2, hb.2.2.1, by omega⟩

theorem grid_numbers_pairwise {g : AoCGrid} (hWF : WF g) :
    List.Pairwise disjointRuns g.grid_numbers := by
  rw [grid_numbers_eq_spec hWF, specNumbers]
  exact tailRows_pairwise g.height 0 (by omega)

theorem grid_numbers_nodup {g : AoCGrid} (hWF : WF g) : g.grid_numbers.Nodup := by
  have hp := grid_numbers_pairwise hWF
  apply List.Pairwise.imp_of_mem ?_ hp
  intro a b ha hb hr
  intro heq
  subst heq
  have hbd := grid_numbers_bounds hWF a ha
  rcases hr with h | h | h
  · exact h rfl
  · omega
  · omega

theorem mem_rowRuns_iff_mem_spec {g : AoCGrid} (hWF : WF g) {n : GridNumber}
    {y : Nat} (hy : y < g.height) (hny : n.start_coord.y = y) :
    n ∈ specNumbers g ↔ n ∈ rowRuns y 0 (rowOf g y) := by
  constructor
  · intro hn
    rw [specNumbers] at hn
    obtain ⟨h1, h2, h3⟩ := tailRows_mem g.height 0 (by omega) n hn
    rw [hny] at h3
    exact h3
  · intro hn
    rw [specNumbers, tailRows]
    rw [List.mem_flatMap]
    refine ⟨y, ?_, ?_⟩
    · rw [List.mem_range]
      omega
    · rw [Nat.zero_add]
      exact hn

theorem grid_numbers_cover {g : AoCGrid} (hWF : WF g) {x y : Nat}
    (hx : x < g.width) (hy : y < g.height) :
    ((cellAt g x y).isDigit = true ↔ ∃ n ∈ g.grid_numbers, covers n ⟨x, y⟩) := by
  have hrow := rowOf_length hWF hy
  have hcov := rowRuns_cover y (rowOf g y).length (rowOf g y) (le_refl _) 0 x
    (by omega) (by omega)
  rw [Nat.sub_zero] at hcov
  have hcell : (rowOf g y).getD x '.' = cellAt g x y := rfl
  rw [hcell] at hcov
  rw [grid_numbers_eq_spec hWF, hcov]
  constructor
  · intro ⟨n, hn, h1, h2⟩
    have hny : n.start_coord.y = y :=
      (rowRuns_mem_bounds y (rowOf g y).length _ (le_refl _) 0 n hn).1
    refine ⟨n, (mem_rowRuns_iff_mem_spec hWF hy hny).mpr hn, ?_⟩
    exact ⟨hny, h1, h2⟩
  · intro ⟨n, hn, hcv⟩
    obtain ⟨hny, h1, h2⟩ := hcv
    exact ⟨n, (mem_rowRuns_iff_mem_spec hWF hy hny).mp hn, h1, h2⟩

/-! ### Adjacency lemmas -/

theorem adjCandidate_eq_some {g : AoCGrid} {p q : Point} {d : Int × Int} :
    adjCandidate g p d = some q ↔
      (0 ≤ (p.x : Int) + d.1 ∧ 0 ≤ (p.y : Int) + d.2 ∧
        q = ⟨((p.x : Int) + d.1).toNat, ((p.y : Int) + d.2).toNat⟩ ∧
        g.valid_coordinate q) := by
  rw [adjCandidate]
  by_cases h : 0 ≤ (p.x : Int) + d.1 ∧ 0 ≤ (p.y : Int) + d.2
  · rw [if_pos h]
    dsimp only
    by_cases hv : g.valid_coordinate ⟨((p.x : Int) + d.1).toNat, ((p.y : Int) + d.2).toNat⟩
    · rw [if_pos hv]
      constructor
      · intro hq
        have hq2 := Option.some_inj.mp hq
        subst hq2
        exact ⟨h.1, h.2, rfl, hv⟩
      · intro ⟨_, _, hq, _⟩
        rw [hq]
    · rw [if_neg hv]
      constructor
      · intro hq; cases hq
      · intro ⟨_, _, hq, hval⟩
        rw [hq] at hval
        exact absurd hval hv
  · rw [if_neg h]
    constructor
    · intro hq; cases hq
    · intro ⟨h1, h2, _, _⟩
      exact absurd ⟨h1, h2⟩ h

theorem mem_adjacentPoints {g : AoCGrid} {p q : Point} :
    q ∈ adjacentPoints g p ↔ ∃ d ∈ adjOffsets, adjCandidate g p d = some q := by
  rw [adjacentPoints, List.mem_filterMap]

theorem adjacentPoints_valid {g : AoCGrid} {p : Point} :
    ∀ q ∈ adjacentPoints g p, g.valid_coordinate q := by
  intro q hq
  obtain ⟨d, _, hd⟩ := mem_adjacentPoints.mp hq
  exact (adjCandidate_eq_some.mp hd).2.2.2

theorem adjacentPoints_nodup (g : AoCGrid) (p : Point) :
    (adjacentPoints g p).Nodup := by
  rw [adjacentPoints]
  apply List.Nodup.filterMap ?_ (by decide : adjOffsets.Nodup)
  intro d d' q hd hd'
  rw [Option.mem_def] at hd hd'
  obtain ⟨h1, h2, hq, _⟩ := adjCandidate_eq_some.mp hd
  obtain ⟨h1', h2', hq', _⟩ := adjCandidate_eq_some.mp hd'
  have heq := hq.symm.trans hq'
  simp only [Point.mk.injEq] at heq
  obtain ⟨d1, d2⟩ := d
  obtain ⟨d1', d2'⟩ := d'
  simp only at h1 h2 h1' h2' heq
  have hfst : d1 = d1' := by omega
  have hsnd : d2 = d2' := by omega
  rw [hfst, hsnd]

theorem length_filterMap_all_isSome {α β : Type _} (f : α → Option β) :
    ∀ l : List α, (∀ a ∈ l, (f a).isSome) → (l.filterMap f).length = l.length := by
  intro l
  induction l with
  | nil => intro _; rfl
  | cons a t ih =>
    intro h
    rw [List.filterMap_cons]
    cases hfa : f a with
    | none =>
      have := h a (by simp)
      rw [hfa] at this
      exact absurd this (by simp)
    | some b =>
      have ih2 := ih (fun x hx => h x (by simp [hx]))
      rw [List.length_cons, List.length_cons, ih2]

theorem adjacentPoints_length_le (g : AoCGrid) (p : Point) :
    (adjacentPoints g p).length ≤ 8 := by
  rw [adjacentPoints]
  have h := List.length_filterMap_le (adjCandidate g p) adjOffsets
  have h8 : adjOffsets.length = 8 := rfl
  omega

theorem adjCandidate_isSome_of {g : AoCGrid} {p : Point} {d : Int × Int}
    (ha : 0 ≤ (p.x : Int) + d.1) (hb : 0 ≤ (p.y : Int) + d.2)
    (hc : ((p.x : Int) + d.1).toNat < g.width)
    (hd2 : ((p.y : Int) + d.2).toNat < g.height) :
    (adjCandidate g p d).isSome := by
  rw [adjCandidate, if_pos ⟨ha, hb⟩]
  dsimp only
  rw [if_pos (show g.valid_coordinate
    ⟨((p.x : Int) + d.1).toNat, ((p.y : Int) + d.2).toNat⟩ from ⟨hc, hd2⟩)]
  rfl

theorem adjacentPoints_length_interior {g : AoCGrid} {p : Point}
    (hvalid : g.valid_coordinate p)
    (h1 : p.x ≠ 0) (h2 : p.x ≠ g.width - 1) (h3 : p.y ≠ 0) (h4 : p.y ≠ g.height - 1) :
    (adjacentPoints g p).length = 8 := by
  obtain ⟨hvx, hvy⟩ := hvalid
  rw [adjacentPoints]
  rw [length_filterMap_all_isSome]
  · rfl
  · intro d hd
    fin_cases hd <;>
      (apply adjCandidate_isSome_of <;> dsimp only <;> omega)

theorem filterMap_sublist_map {α β : Type _} (f : α → Option β) (gf : α → β)
    (h : ∀ a b, f a = some b → b = gf a) :
    ∀ l : List α, List.Sublist (l.filterMap f) (l.map gf) := by
  intro l
  induction l with
  | nil => simp
  | cons a t ih =>
    rw [List.filterMap_cons, List.map_cons]
    cases hfa : f a with
    | none => exact List.Sublist.cons _ ih
    | some b =>
      have hb := h a b hfa
      rw [hb]
      exact List.Sublist.cons₂ _ ih

theorem adjacentPoints_sublist (g : AoCGrid) (p : Point) :
    List.Sublist (adjacentPoints g p)
      (adjOffsets.map (fun d =>
        (⟨((p.x : Int) + d.1).toNat, ((p.y : Int) + d.2).toNat⟩ : Point))) := by
  rw [adjacentPoints]
  apply filterMap_sublist_map
  intro d q hd
  exact (adjCandidate_eq_some.mp hd).2.2.1

/-! ### Part-number lemmas -/

theorem collectWhileSome_of_all (F : Point → Option (List Char)) (f : Point → List Char) :
    ∀ l : List Point, (∀ q ∈ l, F q = some (f q)) →
      collectWhileSome (l.map F) = l.map f
  | [], _ => rfl
  | a :: t, h => by
    rw [List.map_cons, List.map_cons, h a (by simp)]
    rw [collectWhileSome]
    rw [collectWhileSome_of_all F f t (fun q hq => h q (by simp [hq]))]

theorem adjacentStrs_eq {g : AoCGrid} (hWF : WF g) (p : Point) :
    adjacentStrs g p = (adjacentPoints g p).map (fun q => [cellAt g q.x q.y]) := by
  rw [adjacentStrs]
  apply collectWhileSome_of_all
  intro q hq
  have hv := adjacentPoints_valid q hq
  exact get_eq_cell hWF hv.1 hv.2

theorem part_number_isSome_iff {n : GridNumber} {g : AoCGrid} :
    (n.part_number g).isSome = true ↔
      (gridNumberAdjacentData n g).any
        (fun s => decide ((GridDataType.from_str s).getD GridDataType.Space =
          GridDataType.Symbol)) = true := by
  rw [GridNumber.part_number]
  split
  · next h => simp [h]
  · next h => simp [h]

theorem from_str_symbol_iff (c : Char) :
    ((GridDataType.from_str [c]).getD GridDataType.Space = GridDataType.Symbol) ↔
      isSymbolChar c := by
  rw [from_str_singleton, Option.getD_some]
  by_cases hc : c = '.'
  · rw [if_pos hc]
    constructor
    · intro h; cases h
    · intro ⟨h1, _⟩; exact absurd hc h1
  · by_cases hd : c.isDigit
    · rw [if_neg hc, if_pos hd]
      constructor
      · intro h; cases h
      · intro ⟨_, h2⟩
        rw [hd] at h2
        cases h2
    · rw [if_neg hc, if_neg hd]
      constructor
      · intro _
        exact ⟨hc, by simpa using hd⟩
      · intro _; rfl

theorem part_number_iff_aux {g : AoCGrid} (hWF : WF g) {n : GridNumber} :
    ((n.part_number g).isSome = true ↔ ∃ i < n.coord_length,
      ∃ q ∈ adjacentPoints g ⟨n.start_coord.x + i, n.start_coord.y⟩,
        isSymbolChar (cellAt g q.x q.y)) := by
  rw [part_number_isSome_iff, List.any_eq_true]
  constructor
  · intro ⟨s, hs, hpred⟩
    rw [gridNumberAdjacentData, List.mem_flatMap] at hs
    obtain ⟨i, hi, hsi⟩ := hs
    rw [List.mem_range] at hi
    rw [adjacentStrs_eq hWF] at hsi
    rw [List.mem_map] at hsi
    obtain ⟨q, hq, hsq⟩ := hsi
    refine ⟨i, hi, q, hq, ?_⟩
    rw [← from_str_symbol_iff]
    rw [← hsq] at hpred
    exact of_decide_eq_true hpred
  · intro ⟨i, hi, q, hq, hsym⟩
    refine ⟨[cellAt g q.x q.y], ?_, ?_⟩
    · rw [gridNumberAdjacentData, List.mem_flatMap]
      refine ⟨i, by rw [List.mem_range]; exact hi, ?_⟩
      rw [adjacentStrs_eq hWF, List.mem_map]
      exact ⟨q, hq, rfl⟩
    · exact decide_eq_true ((from_str_symbol_iff _).mpr hsym)

/-! ### Part-number lookup lemmas -/

theorem covers_iff_dx {n : GridNumber} {q : Point} :
    covers n q ↔ ∃ dx < n.coord_length, q = ⟨n.start_coord.x + dx, n.start_coord.y⟩ := by
  constructor
  · intro ⟨h1, h2, h3⟩
    refine ⟨q.x - n.start_coord.x, by omega, ?_⟩
    obtain ⟨qx, qy⟩ := q
    simp only at h1 h2 h3
    simp only [Point.mk.injEq]
    constructor <;> omega
  · intro ⟨dx, hdx, hq⟩
    subst hq
    refine ⟨rfl, ?_, ?_⟩
    · show n.start_coord.x ≤ n.start_coord.x + dx
      omega
    · show n.start_coord.x + dx < n.start_coord.x + n.coord_length
      omega

theorem covers_unique {g : AoCGrid} (hWF : WF g) {n m : GridNumber} {q : Point}
    (hn : n ∈ g.grid_numbers) (hm : m ∈ g.grid_numbers)
    (hcn : covers n q) (hcm : covers m q) : n = m := by
  by_contra hne
  have hp := grid_numbers_pairwise hWF
  have hsym : Symmetric disjointRuns := by
    intro a b hab
    rcases hab with h | h | h
    · exact Or.inl (Ne.symm h)
    · exact Or.inr (Or.inr h)
    · exact Or.inr (Or.inl h)
  have hdisj := List.Pairwise.forall hsym hp hn hm hne
  obtain ⟨hn1, hn2, hn3⟩ := hcn
  obtain ⟨hm1, hm2, hm3⟩ := hcm
  rcases hdisj with h | h | h
  · exact h (by omega)
  · omega
  · omega

theorem mem_lookup_inner_fold (n : GridNumber) :
    ∀ (k : Nat) (m : List (Point × GridNumber)) (e : Point × GridNumber),
      e ∈ (List.range k).foldl
        (fun m2 dx => (⟨n.start_coord.x + dx, n.start_coord.y⟩, n) :: m2) m ↔
      (e ∈ m ∨ ∃ dx < k, e = (⟨n.start_coord.x + dx, n.start_coord.y⟩, n)) := by
  intro k
  induction k with
  | zero =>
    intro m e
    simp [List.range_zero]
  | succ k ih =>
    intro m e
    rw [List.range_succ, List.foldl_append]
    simp only [List.foldl_cons, List.foldl_nil]
    rw [List.mem_cons, ih]
    constructor
    · intro h
      rcases h with h | h | ⟨dx, hdx, h⟩
      · exact Or.inr ⟨k, by omega, h⟩
      · exact Or.inl h
      · exact Or.inr ⟨dx, by omega, h⟩
    · intro h
      rcases h with h | ⟨dx, hdx, h⟩
      · exact Or.inr (Or.inl h)
      · by_cases hk : dx = k
        · subst hk
          exact Or.inl h
        · exact Or.inr (Or.inr ⟨dx, by omega, h⟩)

theorem mem_lookup_fold (g : AoCGrid) :
    ∀ (l : List GridNumber) (acc : List (Point × GridNumber)) (e : Point × GridNumber),
      e ∈ l.foldl (fun m n =>
        if (n.part_number g).isSome then
          (List.range n.coord_length).foldl
            (fun m2 dx => (⟨n.start_coord.x + dx, n.start_coord.y⟩, n) :: m2) m
        else m) acc ↔
      (e ∈ acc ∨ ∃ n ∈ l, (n.part_number g).isSome = true ∧
        ∃ dx < n.coord_length, e = (⟨n.start_coord.x + dx, n.start_coord.y⟩, n)) := by
  intro l
  induction l with
  | nil =>
    intro acc e
    simp
  | cons a t ih =>
    intro acc e
    rw [List.foldl_cons, ih]
    by_cases ha : (a.part_number g).isSome
    · rw [if_pos ha, mem_lookup_inner_fold]
      constructor
      · intro h
        rcases h with (h | ⟨dx, hdx, h⟩) | ⟨n, hn, h1, h2⟩
        · exact Or.inl h
        · exact Or.inr ⟨a, by simp, ha, dx, hdx, h⟩
        · exact Or.inr ⟨n, by simp [hn], h1, h2⟩
      · intro h
        rcases h with h | ⟨n, hn, h1, h2⟩
        · exact Or.inl (Or.inl h)
        · rcases List.mem_cons.mp hn with hna | hnt
          · subst hna
            exact Or.inl (Or.inr h2)
          · exact Or.inr ⟨n, hnt, h1, h2⟩
    · rw [if_neg ha]
      constructor
      · intro h
        rcases h with h | ⟨n, hn, h1, h2⟩
        · exact Or.inl h
        · exact Or.inr ⟨n, by simp [hn], h1, h2⟩
      · intro h
        rcases h with h | ⟨n, hn, h1, h2⟩
        · exact Or.inl h
        · rcases List.mem_cons.mp hn with hna | hnt
          · subst hna
            rw [h1] at ha
            exact absurd rfl ha
          · exact Or.inr ⟨n, hnt, h1, h2⟩

theorem mem_part_number_lookup {g : AoCGrid} {e : Point × GridNumber} :
    e ∈ part_number_lookup g ↔
      ∃ n ∈ g.grid_numbers, (n.part_number g).isSome = true ∧
        ∃ dx < n.coord_length, e = (⟨n.start_coord.x + dx, n.start_coord.y⟩, n) := by
  rw [part_number_lookup, mem_lookup_fold]
  simp

theorem lookupGet_eq_some_iff {g : AoCGrid} (hWF : WF g) {q : Point} {n : GridNumber} :
    lookupGet (part_number_lookup g) q = some n ↔
      (n ∈ g.grid_numbers ∧ (n.part_number g).isSome = true ∧ covers n q) := by
  rw [lookupGet]
  constructor
  · intro h
    cases hf : (part_number_lookup g).find? (fun e => decide (e.1 = q)) with
    | none =>
      rw [hf] at h
      cases h
    | some e =>
      rw [hf] at h
      simp only [Option.map_some'] at h
      have hpe := List.find?_some hf
      have hme := List.mem_of_find?_eq_some hf
      have he1 : e.1 = q := of_decide_eq_true hpe
      obtain ⟨n', hn', hp', dx, hdx, he⟩ := mem_part_number_lookup.mp hme
      subst he
      simp only at he1 h
      have hnn : n' = n := Option.some_inj.mp h
      subst hnn
      subst he1
      exact ⟨hn', hp', covers_iff_dx.mpr ⟨dx, hdx, rfl⟩⟩
  · intro ⟨hn, hpart, hcov⟩
    have hex : (q, n) ∈ part_number_lookup g := by
      apply mem_part_number_lookup.mpr
      obtain ⟨dx, hdx, hq⟩ := covers_iff_dx.mp hcov
      exact ⟨n, hn, hpart, dx, hdx, by rw [hq]⟩
    cases hf : (part_number_lookup g).find? (fun e => decide (e.1 = q)) with
    | none =>
      have := List.find?_eq_none.mp hf (q, n) hex
      simp at this
    | some e =>
      have hpe := List.find?_some hf
      have hme := List.mem_of_find?_eq_some hf
      have he1 : e.1 = q := of_decide_eq_true hpe
      obtain ⟨n', hn', hp', dx, hdx, he⟩ := mem_part_number_lookup.mp hme
      subst he
      simp only at he1
      simp only [Option.map_some']
      have hcov' : covers n' q := by
        rw [← he1]
        exact covers_iff_dx.mpr ⟨dx, hdx, rfl⟩
      rw [covers_unique hWF hn' hn hcov' hcov]

/-! ### Gear lemmas -/

theorem mem_insertSet {s : List GridNumber} {n m : GridNumber} :
    m ∈ insertSet s n ↔ (m ∈ s ∨ m = n) := by
  rw [insertSet]
  by_cases h : n ∈ s
  · rw [if_pos h]
    constructor
    · exact Or.inl
    · intro hm
      rcases hm with hm | hm
      · exact hm
      · rw [hm]; exact h
  · rw [if_neg h]
    rw [List.mem_append, List.mem_singleton]

theorem insertSet_nodup {s : List GridNumber} {n : GridNumber} (h : s.Nodup) :
    (insertSet s n).Nodup := by
  rw [insertSet]
  by_cases hn : n ∈ s
  · rw [if_pos hn]; exact h
  · rw [if_neg hn]
    rw [List.nodup_append]
    exact ⟨h, List.nodup_singleton n, by
      intro a ha hb
      rw [List.mem_singleton] at hb
      rw [hb] at ha
      exact hn ha⟩

theorem mem_gearFold (lookup : List (Point × GridNumber)) :
    ∀ (l : List Point) (acc : List GridNumber) (n : GridNumber),
      n ∈ l.foldl (fun s2 q =>
        match lookupGet lookup q with
        | some n2 => insertSet s2 n2
        | none => s2) acc ↔
      (n ∈ acc ∨ ∃ q ∈ l, lookupGet lookup q = some n) := by
  intro l
  induction l with
  | nil =>
    intro acc n
    simp
  | cons a t ih =>
    intro acc n
    rw [List.foldl_cons]
    cases ha : lookupGet lookup a with
    | none =>
      rw [ih]
      constructor
      · intro h
        rcases h with h | ⟨q, hq, h2⟩
        · exact Or.inl h
        · exact Or.inr ⟨q, by simp [hq], h2⟩
      · intro h
        rcases h with h | ⟨q, hq, h2⟩
        · exact Or.inl h
        · rcases List.mem_cons.mp hq with hqa | hqt
          · subst hqa
            rw [h2] at ha
            cases ha
          · exact Or.inr ⟨q, hqt, h2⟩
    | some n2 =>
      rw [ih]
      rw [mem_insertSet]
      constructor
      · intro h
        rcases h with (h | h) | ⟨q, hq, h2⟩
        · exact Or.inl h
        · exact Or.inr ⟨a, by simp, by rw [ha, h]⟩
        · exact Or.inr ⟨q, by simp [hq], h2⟩
      · intro h
        rcases h with h | ⟨q, hq, h2⟩
        · exact Or.inl (Or.inl h)
        · rcases List.mem_cons.mp hq with hqa | hqt
          · subst hqa
            rw [h2] at ha
            exact Or.inl (Or.inr (Option.some_inj.mp ha))
          · exact Or.inr ⟨q, hqt, h2⟩

theorem gearFold_nodup (lookup : List (Point × GridNumber)) :
    ∀ (l : List Point) (acc : List GridNumber), acc.Nodup →
      (l.foldl (fun s2 q =>
        match lookupGet lookup q with
        | some n2 => insertSet s2 n2
        | none => s2) acc).Nodup := by
  intro l
  induction l with
  | nil => intro acc h; exact h
  | cons a t ih =>
    intro acc h
    rw [List.foldl_cons]
    cases ha : lookupGet lookup a with
    | none => exact ih acc h
    | some n2 => exact ih _ (insertSet_nodup h)

theorem mem_adjacentPartNumbers {g : AoCGrid} {p : Point} {n : GridNumber} :
    n ∈ adjacentPartNumbers g p ↔
      (n ∈ g.grid_numbers ∧ (n.part_number g).isSome = true ∧
        ∃ q ∈ adjacentPoints g p, covers n q) := by
  rw [adjacentPartNumbers, List.mem_filter]
  rw [Bool.and_eq_true, List.any_eq_true]
  constructor
  · intro ⟨h1, h2, h3⟩
    obtain ⟨q, hq, hc⟩ := h3
    exact ⟨h1, h2, q, hq, of_decide_eq_true hc⟩
  · intro ⟨h1, h2, q, hq, hc⟩
    exact ⟨h1, h2, q, hq, decide_eq_true hc⟩

theorem adjacentPartNumbers_nodup {g : AoCGrid} (hWF : WF g) (p : Point) :
    (adjacentPartNumbers g p).Nodup := by
  rw [adjacentPartNumbers]
  exact (grid_numbers_nodup hWF).filter _

theorem gearSet_perm {g : AoCGrid} (hWF : WF g) (p : Point) :
    ((adjacentPoints g p).foldl (fun s2 q =>
        match lookupGet (part_number_lookup g) q with
        | some n2 => insertSet s2 n2
        | none => s2) []).Perm (adjacentPartNumbers g p) := by
  rw [List.perm_ext_iff_of_nodup
    (gearFold_nodup _ _ [] List.nodup_nil) (adjacentPartNumbers_nodup hWF p)]
  intro n
  rw [mem_gearFold, mem_adjacentPartNumbers]
  constructor
  · intro h
    rcases h with h | ⟨q, hq, h2⟩
    · exact absurd h (List.not_mem_nil n)
    · obtain ⟨h1, h2', h3⟩ := (lookupGet_eq_some_iff hWF).mp h2
      exact ⟨h1, h2', q, hq, h3⟩
  · intro ⟨h1, h2, q, hq, h3⟩
    exact Or.inr ⟨q, hq, (lookupGet_eq_some_iff hWF).mpr ⟨h1, h2, h3⟩⟩

theorem nextPoint_valid {g : AoCGrid} {p q : Point}
    (hp : g.valid_coordinate p) (h : nextPoint g p = some q) :
    g.valid_coordinate q := by
  obtain ⟨hpx, hpy⟩ := hp
  rw [nextPoint] at h
  by_cases h1 : p.x = g.width - 1
  · rw [if_pos h1] at h
    by_cases h2 : p.y = g.height - 1
    · rw [if_pos h2] at h
      cases h
    · rw [if_neg h2] at h
      cases h
      constructor
      · show 0 < g.width
        omega
      · show p.y + 1 < g.height
        omega
  · rw [if_neg h1] at h
    cases h
    constructor
    · show p.x + 1 < g.width
      omega
    · exact hpy

theorem pointsFrom_valid {g : AoCGrid} :
    ∀ (fuel : Nat) (p : Point), g.valid_coordinate p →
      ∀ q ∈ pointsFrom g fuel p, g.valid_coordinate q := by
  intro fuel
  induction fuel with
  | zero =>
    intro p hp q hq
    rw [pointsFrom] at hq
    exact absurd hq (List.not_mem_nil q)
  | succ f ih =>
    intro p hp q hq
    rw [pointsFrom] at hq
    rcases List.mem_cons.mp hq with h | h
    · rw [h]; exact hp
    · cases hnp : nextPoint g p with
      | none =>
        rw [hnp] at h
        exact absurd h (List.not_mem_nil q)
      | some r =>
        rw [hnp] at h
        exact ih r (nextPoint_valid hp hnp) q h

theorem gridPoints_valid {g : AoCGrid} (hWF : WF g) :
    ∀ p ∈ gridPoints g, g.valid_coordinate p := by
  rw [gridPoints]
  exact pointsFrom_valid _ _ ⟨hWF.1, hWF.2.1⟩

theorem gears_pointwise {g : AoCGrid} (hWF : WF g) :
    ∀ l : List Point, (∀ p ∈ l, g.valid_coordinate p) →
      (l.flatMap (fun p =>
        if (g.get p).getD [] = ['*'] then
          (if ((adjacentPoints g p).foldl (fun s2 q =>
              match lookupGet (part_number_lookup g) q with
              | some n => insertSet s2 n
              | none => s2) []).length = 2 then
            [({ ratio := (((adjacentPoints g p).foldl (fun s2 q =>
                match lookupGet (part_number_lookup g) q with
                | some n => insertSet s2 n
                | none => s2) []).map (fun n => n.value)).prod } : Gear)]
          else [])
        else [])) =
      l.filterMap (fun p =>
        if cellAt g p.x p.y = '*' ∧ (adjacentPartNumbers g p).length = 2 then
          some ({ ratio := ((adjacentPartNumbers g p).map (fun n => n.value)).prod } : Gear)
        else none) := by
  intro l
  induction l with
  | nil => intro _; rfl
  | cons a t ih =>
    intro hval
    obtain ⟨ax, ay⟩ := a
    rw [List.flatMap_cons, List.filterMap_cons]
    have ha := hval ⟨ax, ay⟩ (by simp)
    have hrest := ih (fun p hp => hval p (by simp [hp]))
    rw [hrest]
    have hget : (g.get ⟨ax, ay⟩).getD [] = [cellAt g ax ay] := by
      rw [get_eq_cell hWF ha.1 ha.2]
      rfl
    have hcell_eq : ((g.get ⟨ax, ay⟩).getD [] = ['*']) ↔ cellAt g ax ay = '*' := by
      rw [hget]
      constructor
      · intro h
        injection h with h1 _
      · intro h
        rw [h]
    have hperm := gearSet_perm hWF ⟨ax, ay⟩
    have hlen := hperm.length_eq
    by_cases hs : cellAt g ax ay = '*'
    · rw [if_pos (hcell_eq.mpr hs)]
      by_cases h2 : (adjacentPartNumbers g ⟨ax, ay⟩).length = 2
      · rw [if_pos (by rw [hlen]; exact h2)]
        rw [if_pos (⟨hs, h2⟩ : _ ∧ _)]
        have hprod := (hperm.map (fun n => n.value)).prod_eq
        rw [hprod]
        rfl
      · rw [if_neg (by rw [hlen]; exact h2)]
        rw [if_neg (fun hand => h2 hand.2)]
        rfl
    · rw [if_neg (fun hh => hs (hcell_eq.mp hh))]
      rw [if_neg (fun hand => hs hand.1)]
      rfl

theorem gears_eq_spec {g : AoCGrid} (hWF : WF g) : g.gears = gearsSpec g := by
  exact gears_pointwise hWF (gridPoints g) (gridPoints_valid hWF)

/-! ### Construction lemmas -/

theorem splitLinesAux_eq_nil_iff :
    ∀ (s acc : List Char), splitLinesAux s acc = [] ↔ (s = [] ∧ acc = []) := by
  intro s
  induction s with
  | nil =>
    intro acc
    rw [splitLinesAux]
    by_cases h : acc = []
    · rw [if_pos h]
      simp [h]
    · rw [if_neg h]
      simp [h]
  | cons c t ih =>
    intro acc
    rw [splitLinesAux]
    by_cases hc : c = '\n'
    · rw [if_pos hc]
      simp
    · rw [if_neg hc]
      rw [ih (c :: acc)]
      simp

theorem rustLines_eq_nil_iff (s : List Char) : rustLines s = [] ↔ s = [] := by
  rw [rustLines, splitLinesAux_eq_nil_iff]
  simp

/-! ### Claim theorems -/

set_option maxRecDepth 100000

/-- C1: for the spec's 10×10 example grid, the scanner produces exactly
the numbers 467, 114, 35, 633, 617, 58, 592, 755, 664, 598 in that
order, `solve_one` returns 4361 and `solve_two` returns 467835. -/
theorem example_end_to_end :
    exampleGrid.grid_numbers.map (fun n => n.value) =
      [467, 114, 35, 633, 617, 58, 592, 755, 664, 598] ∧
    solve_one exampleGrid = 4361 ∧ solve_two exampleGrid = 467835 := by
  refine ⟨by decide, by decide, by decide⟩

/-- C2: for every well-formed grid, the numbers produced by the scanner
have positive length, never extend past the right edge of their row (so
a run reaching the last column terminates there), are pairwise
non-overlapping, and their runs cover exactly the digit cells of the
grid — so concatenating, in scan order, the characters covered by the
runs together with all non-digit cells reconstructs the grid. -/
theorem numbers_partition {g : AoCGrid} (hWF : WF g) :
    (∀ n ∈ g.grid_numbers, n.start_coord.y < g.height ∧ 0 < n.coord_length ∧
      n.start_coord.x + n.coord_length ≤ g.width) ∧
    List.Pairwise disjointRuns g.grid_numbers ∧
    (∀ x y : Nat, x < g.width → y < g.height →
      ((cellAt g x y).isDigit = true ↔ ∃ n ∈ g.grid_numbers, covers n ⟨x, y⟩)) :=
  ⟨grid_numbers_bounds hWF, grid_numbers_pairwise hWF,
    fun _ _ hx hy => grid_numbers_cover hWF hx hy⟩

/-- Witness for C2 at the example grid. -/
theorem numbers_partition_witness :
    (∀ n ∈ exampleGrid.grid_numbers,
      n.start_coord.y < exampleGrid.height ∧ 0 < n.coord_length ∧
        n.start_coord.x + n.coord_length ≤ exampleGrid.width) ∧
    List.Pairwise disjointRuns exampleGrid.grid_numbers ∧
    (∀ x y : Nat, x < exampleGrid.width → y < exampleGrid.height →
      ((cellAt exampleGrid x y).isDigit = true ↔
        ∃ n ∈ exampleGrid.grid_numbers, covers n ⟨x, y⟩)) :=
  numbers_partition (by decide)

/-- C3: for every number of a well-formed schematic, `part_number`
returns `Some` exactly when some cell of the run (any cell, not just
the endpoints) has a `Symbol` among its 8 neighbors, and the returned
value is the number's value; a run surrounded only by dots and digits
is not a part number. -/
theorem part_number_spec {g : AoCGrid} (hWF : WF g) {n : GridNumber}
    (hn : n ∈ g.grid_numbers) :
    ((n.part_number g).isSome = true ↔ ∃ i < n.coord_length,
      ∃ q ∈ adjacentPoints g ⟨n.start_coord.x + i, n.start_coord.y⟩,
        isSymbolChar (cellAt g q.x q.y)) ∧
    (∀ v, n.part_number g = some v → v = n.value) := by
  refine ⟨part_number_iff_aux hWF, ?_⟩
  intro v hv
  rw [GridNumber.part_number] at hv
  split at hv
  · exact (Option.some_inj.mp hv).symm
  · cases hv

/-- Witness for C3 at the number 467 of the example grid. -/
theorem part_number_spec_witness :
    ((exampleNumber467.part_number exampleGrid).isSome = true ↔
      ∃ i < exampleNumber467.coord_length,
        ∃ q ∈ adjacentPoints exampleGrid
          ⟨exampleNumber467.start_coord.x + i, exampleNumber467.start_coord.y⟩,
          isSymbolChar (cellAt exampleGrid q.x q.y)) ∧
    (∀ v, exampleNumber467.part_number exampleGrid = some v →
      v = exampleNumber467.value) :=
  part_number_spec (by decide) (by decide)

/-- C4: for every well-formed grid, `gears` emits exactly one gear per
`*` cell (in row-major order) whose 8-neighbor set touches exactly two
distinct adjacent part numbers, with the ratio the product of their two
values; distinctness is by number identity — two distinct adjacent
numbers always have different start coordinates, so equal values still
count as two. -/
theorem gears_characterization {g : AoCGrid} (hWF : WF g) :
    g.gears = gearsSpec g ∧
    (∀ p : Point, (adjacentPartNumbers g p).Pairwise
      (fun n m => n.start_coord ≠ m.start_coord)) := by
  refine ⟨gears_eq_spec hWF, ?_⟩
  intro p
  apply List.Pairwise.imp_of_mem ?_ ((grid_numbers_pairwise hWF).filter _)
  intro a b ha hb hdisj heq
  have hba := grid_numbers_bounds hWF a (List.mem_of_mem_filter ha)
  have hbb := grid_numbers_bounds hWF b (List.mem_of_mem_filter hb)
  have h1 : a.start_coord.x = b.start_coord.x := by rw [heq]
  have h2 : a.start_coord.y = b.start_coord.y := by rw [heq]
  rcases hdisj with h | h | h
  · exact h h2
  · omega
  · omega

/-- Witness for C4 at the example grid. -/
theorem gears_characterization_witness :
    exampleGrid.gears = gearsSpec exampleGrid ∧
    (∀ p : Point, (adjacentPartNumbers exampleGrid p).Pairwise
      (fun n m => n.start_coord ≠ m.start_coord)) :=
  gears_characterization (by decide)

/-- C5: for every valid coordinate, the neighbor enumeration yields
only valid coordinates, without duplicates, at most 8 of them, fewer
than 8 only on an edge or corner, and in the fixed offset order NW, N,
NE, W, E, SW, S, SE (it is a sublist of the full translated offset
list). -/
theorem neighbors_spec {g : AoCGrid} {p : Point} (hp : g.valid_coordinate p) :
    (∀ q ∈ adjacentPoints g p, g.valid_coordinate q) ∧
    (adjacentPoints g p).Nodup ∧
    (adjacentPoints g p).length ≤ 8 ∧
    ((adjacentPoints g p).length < 8 →
      (p.x = 0 ∨ p.x = g.width - 1 ∨ p.y = 0 ∨ p.y = g.height - 1)) ∧
    List.Sublist (adjacentPoints g p)
      (adjOffsets.map (fun d =>
        (⟨((p.x : Int) + d.1).toNat, ((p.y : Int) + d.2).toNat⟩ : Point))) := by
  refine ⟨adjacentPoints_valid, adjacentPoints_nodup g p,
    adjacentPoints_length_le g p, ?_, adjacentPoints_sublist g p⟩
  intro hlt
  by_contra hedge
  push_neg at hedge
  obtain ⟨h1, h2, h3, h4⟩ := hedge
  have := adjacentPoints_length_interior hp h1 h2 h3 h4
  omega

/-- Witness for C5 at an interior point of the example grid. -/
theorem neighbors_spec_witness :
    (∀ q ∈ adjacentPoints exampleGrid ⟨1, 1⟩,
      exampleGrid.valid_coordinate q) ∧
    (adjacentPoints exampleGrid ⟨1, 1⟩).Nodup ∧
    (adjacentPoints exampleGrid ⟨1, 1⟩).length ≤ 8 ∧
    ((adjacentPoints exampleGrid ⟨1, 1⟩).length < 8 →
      ((⟨1, 1⟩ : Point).x = 0 ∨ (⟨1, 1⟩ : Point).x = exampleGrid.width - 1 ∨
        (⟨1, 1⟩ : Point).y = 0 ∨ (⟨1, 1⟩ : Point).y = exampleGrid.height - 1)) ∧
    List.Sublist (adjacentPoints exampleGrid ⟨1, 1⟩)
      (adjOffsets.map (fun d =>
        (⟨(((⟨1, 1⟩ : Point).x : Int) + d.1).toNat,
          (((⟨1, 1⟩ : Point).y : Int) + d.2).toNat⟩ : Point))) :=
  neighbors_spec (by decide)

/-- C6: for every valid start coordinate, `get_str` returns the
requested number of characters from the row, truncated to the rest of
the row (rather than failing) when the requested length would cross
the row's right edge. -/
theorem run_at_truncation {g : AoCGrid} (hWF : WF g) {p : Point}
    (hp : g.valid_coordinate p) (len : Nat) :
    g.get_str p len = some (((rowOf g p.y).drop p.x).take len) ∧
    (g.width ≤ p.x + len → g.get_str p len = some ((rowOf g p.y).drop p.x)) := by
  obtain ⟨px, py⟩ := p
  obtain ⟨hpx, hpy⟩ := hp
  have h1 := get_str_eq hWF hpx hpy len
  refine ⟨h1, ?_⟩
  intro hcross
  rw [h1]
  congr 1
  apply List.take_of_length_le
  rw [List.length_drop, rowOf_length hWF hpy]
  omega

/-- Witness for C6 at a run crossing the right edge of the example
grid. -/
theorem run_at_truncation_witness :
    exampleGrid.get_str ⟨8, 0⟩ 5 =
      some (((rowOf exampleGrid 0).drop 8).take 5) ∧
    (exampleGrid.width ≤ 8 + 5 →
      exampleGrid.get_str ⟨8, 0⟩ 5 = some ((rowOf exampleGrid 0).drop 8)) :=
  run_at_truncation (by decide) (by decide) 5

/-- C7: grid construction fails exactly when the input has no line at
all (the empty input) or its lines are not all of the same length;
otherwise it succeeds, keeps the lines, and `width`/`height` are the
common row length and the number of rows. -/
theorem grid_construction_spec (s : List Char) :
    (AoCGrid.new s = none ↔
      (s = [] ∨ ¬ ∀ l1 ∈ rustLines s, ∀ l2 ∈ rustLines s, l1.length = l2.length)) ∧
    (∀ gr : AoCGrid, AoCGrid.new s = some gr →
      gr.lines = rustLines s ∧ gr.height = (rustLines s).length ∧
        ∀ l ∈ rustLines s, l.length = gr.width) := by
  rw [AoCGrid.new]
  cases hh : (rustLines s).head? with
  | none =>
    have hnil : rustLines s = [] := List.head?_eq_none_iff.mp hh
    have hs : s = [] := (rustLines_eq_nil_iff s).mp hnil
    constructor
    · constructor
      · intro _
        exact Or.inl hs
      · intro _
        rfl
    · intro gr hgr
      cases hgr
  | some first =>
    dsimp only
    have hne : rustLines s ≠ [] := by
      intro h
      rw [h] at hh
      cases hh
    have hsne : s ≠ [] := fun h => hne ((rustLines_eq_nil_iff s).mpr h)
    have hfirst_mem : first ∈ rustLines s := by
      cases hl : rustLines s with
      | nil => exact absurd hl hne
      | cons a t =>
        rw [hl] at hh
        simp only [List.head?_cons] at hh
        have ha : a = first := Option.some_inj.mp hh
        rw [← ha]
        exact List.mem_cons_self a t
    by_cases hallb : (rustLines s).all (fun l => l.length = first.length) = true
    · have hall : ∀ l ∈ rustLines s, l.length = first.length := by
        intro l hl
        exact of_decide_eq_true (List.all_eq_true.mp hallb l hl)
      rw [if_pos hallb]
      constructor
      · constructor
        · intro hcontra
          cases hcontra
        · intro hor
          rcases hor with h | h
          · exact absurd h hsne
          · exfalso
            apply h
            intro l1 h1 l2 h2
            rw [hall l1 h1, hall l2 h2]
      · intro gr hgr
        cases hgr
        exact ⟨rfl, rfl, fun l hl => hall l hl⟩
    · rw [if_neg hallb]
      have hex : ∃ l ∈ rustLines s, l.length ≠ first.length := by
        by_contra hcon
        push_neg at hcon
        apply hallb
        rw [List.all_eq_true]
        intro l hl
        exact decide_eq_true (hcon l hl)
      constructor
      · constructor
        · intro _
          right
          intro hcon
          obtain ⟨l, hl, hlen⟩ := hex
          exact hlen (hcon l hl first hfirst_mem)
        · intro _
          rfl
      · intro gr hgr
        cases hgr

/-- Witness for C7: construction succeeds on a 2×2 input and records
its dimensions. -/
theorem grid_construction_spec_witness :
    gridAB.lines = rustLines abInput ∧
    gridAB.height = (rustLines abInput).length ∧
    ∀ l ∈ rustLines abInput, l.length = gridAB.width :=
  (grid_construction_spec abInput).2 gridAB (by decide)

/-- C8: the number and gear sequences are pure functions of the
schematic's immutable data: two schematics with the same rows, width
and height produce identical sequences, so two successive calls on one
schematic (each starting from a fresh iterator state) yield identical
sequences and mutate nothing. -/
theorem numbers_gears_pure (g g2 : AoCGrid) (h1 : g.lines = g2.lines)
    (h2 : g.width = g2.width) (h3 : g.height = g2.height) :
    g.grid_numbers = g2.grid_numbers ∧ g.gears = g2.gears := by
  obtain ⟨l, w, h⟩ := g
  obtain ⟨l2, w2, h2'⟩ := g2
  simp only at h1 h2 h3
  subst h1
  subst h2
  subst h3
  exact ⟨rfl, rfl⟩

/-- Witness for C8: the two calls on the example grid agree. -/
theorem numbers_gears_pure_witness :
    exampleGrid.grid_numbers = exampleGrid.grid_numbers ∧
    exampleGrid.gears = exampleGrid.gears :=
  numbers_gears_pure exampleGrid exampleGrid rfl rfl rfl

/-- C9: classifying the empty string succeeds and yields `Symbol`;
`from_str` errors exactly on strings of length greater than one. -/
theorem from_str_empty_classification :
    GridDataType.from_str [] = some GridDataType.Symbol ∧
    ∀ s : List Char, (GridDataType.from_str s = none ↔ 1 < s.length) := by
  refine ⟨rfl, ?_⟩
  intro s
  match s with
  | [] =>
    constructor
    · intro h
      cases h
    · intro h
      simp at h
  | [c] =>
    rw [from_str_singleton]
    constructor
    · intro h
      cases h
    · intro h
      simp at h
  | c1 :: c2 :: t =>
    have hlen : 1 < (c1 :: c2 :: t).length := by
      simp
    constructor
    · intro _
      exact hlen
    · intro _
      rw [GridDataType.from_str, if_pos hlen]
      · intro hcon
        simp at hcon
      · intro c hcon
        simp at hcon

/-- C10: construction accepts the one-character input consisting of a
single newline, producing a width-0, height-1 grid in which no
coordinate is valid. -/
theorem newline_grid_accepted :
    AoCGrid.new ['\n'] = some newlineGrid ∧ newlineGrid.width = 0 ∧
    newlineGrid.height = 1 ∧ ∀ p : Point, ¬ newlineGrid.valid_coordinate p := by
  refine ⟨by decide, rfl, rfl, ?_⟩
  intro p hp
  exact absurd hp.1 (Nat.not_lt_zero p.x)
